import Mathlib

/-!
Verification of the HTLC switch (`htlcswitch/switch.go`).

The Go source is shallowly embedded below.  Identity types are modelled
as `Nat` (`ChannelID`, `HopID`, payment hashes, preimages) and monetary
amounts as `Int` (Go `btcutil.Amount` is `int64`).  Go maps are modelled
as association lists with overwrite-on-insert semantics; side effects
(offering a packet to a link, writing a response slot, stopping a link)
are recorded in an explicit event list.
-/

namespace HtlcSwitch

/-- Go map modelled as an association list (`Nat` keys). -/
def alookup {α : Type} (xs : List (Nat × α)) (k : Nat) : Option α :=
  (xs.find? (fun e => e.1 = k)).map (fun e => e.2)

/-- Go map assignment `m[k] = v`: replace the binding when the key is
present, append it otherwise. -/
def ainsert {α : Type} (xs : List (Nat × α)) (k : Nat) (v : α) : List (Nat × α) :=
  if xs.any (fun e => e.1 = k) then
    xs.map (fun e => if e.1 = k then (k, v) else e)
  else
    xs ++ [(k, v)]

/-- Go map deletion `delete(m, k)`. -/
def aerase {α : Type} (xs : List (Nat × α)) (k : Nat) : List (Nat × α) :=
  xs.filter (fun e => ¬ e.1 = k)

/-- The Go "delete without preserving order" slice idiom:
`xs[i] = xs[len-1]; xs = xs[:len-1]`. -/
def swapRemove {α : Type} (xs : List α) (i : Nat) : List α :=
  match xs.getLast? with
  | none => xs
  | some last => (xs.set i last).dropLast

/-- Index of the first element satisfying `p` (the Go `for i, l :=
range` search with `break`). -/
def firstMatchIdx {α : Type} (p : α → Bool) : List α → Option Nat
  | [] => none
  | x :: xs => if p x then some 0 else (firstMatchIdx p xs).map (fun i => i + 1)

/-- Swap-remove the first element satisfying `p`; `none` when no element
matches (the Go loop then leaves the slice untouched). -/
def swapRemoveFirst {α : Type} (p : α → Bool) (xs : List α) : Option (List α) :=
  (firstMatchIdx p xs).map (swapRemove xs)

/-- Wire-level failure codes (`lnwire.FailCode`). -/
inductive FailCode : Type
  | unknownDestination
  | insufficientCapacity
  | unknownError
  deriving DecidableEq, Repr

/-- Modelled from the spec: each failure code "is encoded as a single
byte in the Fail message's reason field" (the `lnwire` encoding is not
part of this source file; the concrete byte values are opaque, only
injectivity matters). -/
def FailCode.toByte : FailCode → Nat
  | .unknownDestination => 0
  | .insufficientCapacity => 1
  | .unknownError => 2

/-- Modelled from the spec: `to_fail_code()` decodes the single reason
byte back into a failure code, failing on any other byte string. -/
def toFailCode (reason : List Nat) : Option FailCode :=
  match reason with
  | [0] => some .unknownDestination
  | [1] => some .insufficientCapacity
  | [2] => some .unknownError
  | _ => none

/-- The errors `switch.go` constructs (identified by construction site;
the Go values are strings or `lnwire` codes). -/
inductive Err : Type
  | chanLinkNotFound
  | failCode (c : FailCode)
  | srcLinkNotFound
  | noLinksForDest
  | insufficientCap
  | circuitAddFailed
  | circuitNotFound
  | settleSourceGone
  | wrongUpdateType
  | wrongTypeOfUpdate
  | switchStopped
  | serviceShutdown
  | closeStopped
  | closeNotFound
  | decodeFailCode (id : Nat)
  | removePendingFailed
  | linkStartFailed
  | noPeerLinks
  deriving DecidableEq, Repr

/-- A channel link, abstracted to the fields of the `ChannelLink`
interface the switch consumes.  `peer` is the `HopID` derived from the
peer public key; `startOk` records whether `Start()` succeeds. -/
structure ChannelLink : Type where
  chanID : Nat
  peer : Nat
  bandwidth : Int
  startOk : Bool
  deriving DecidableEq, Repr

/-- HTLC message variants carried by a packet (`lnwire.UpdateAddHTLC`,
`lnwire.UpdateFufillHTLC`, `lnwire.UpdateFailHTLC`, anything else). -/
inductive HtlcMsg : Type
  | add (paymentHash : Nat) (amount : Int)
  | settle (paymentPreimage : Nat)
  | fail (id : Nat) (reason : List Nat)
  | other
  deriving DecidableEq, Repr

/-- The routed unit (`htlcPacket`): `src` is the channel id of the link
that handed the packet in (`none` is the local sentinel), `dest` the
destination hop id. -/
structure HtlcPacket : Type where
  src : Option Nat
  dest : Nat
  payHash : Nat
  amount : Int
  htlc : HtlcMsg
  deriving DecidableEq, Repr

/-- Modelled from the spec: `newInitPacket(hop, htlc)` builds the
user-originated packet with the local-sentinel source and the given
destination hop (the packet constructors are not part of this file). -/
def newInitPacket (hop : Nat) (paymentHash : Nat) (amount : Int) : HtlcPacket :=
  { src := none, dest := hop, payHash := paymentHash, amount := amount,
    htlc := .add paymentHash amount }

/-- Modelled from the spec: `newFailPacket(src, failMsg, payHash, amount)`
builds the Fail packet offered back toward the source link (the packet
constructors are not part of this file). -/
def newFailPacket (src : Option Nat) (id : Nat) (reason : List Nat)
    (payHash : Nat) (amount : Int) : HtlcPacket :=
  { src := src, dest := 0, payHash := payHash, amount := amount,
    htlc := .fail id reason }

/-- A payment circuit: `{source channel id, destination channel id,
payment hash}`. -/
structure PaymentCircuit : Type where
  src : Nat
  dest : Nat
  payHash : Nat
  deriving DecidableEq, Repr

/-- Modelled from the spec: the circuit map "enforces uniqueness per
payment-hash while in flight", so `add` is "rejected as a duplicate if
one already exists for that hash" (the circuit-map implementation is not
part of this file). -/
def circuitAdd (cs : List PaymentCircuit) (c : PaymentCircuit) :
    Option (List PaymentCircuit) :=
  if cs.any (fun x => x.payHash = c.payHash) then none
  else some (cs ++ [c])

/-- Modelled from the spec: removing the circuit for a payment hash
returns the stored circuit and deletes it; absent hash is an error (the
circuit-map implementation is not part of this file). -/
def circuitRemove (cs : List PaymentCircuit) (h : Nat) :
    Option (PaymentCircuit × List PaymentCircuit) :=
  match cs.find? (fun x => x.payHash = h) with
  | none => none
  | some c => some (c, cs.filter (fun x => ¬ x.payHash = h))

/-- A pending user payment record (`pendingPayment`); the two response
channels are modelled by explicit slot-write events. -/
structure PendingPayment : Type where
  paymentHash : Nat
  amount : Int
  deriving DecidableEq, Repr

/-- Observable side effects of the switch handlers. -/
inductive Event : Type
  | offer (chanID : Nat) (pkt : HtlcPacket)
  | offerAsync (chanID : Nat) (pkt : HtlcPacket)
  | writeErr (paymentHash : Nat) (amount : Int) (e : Option Err)
  | writePre (paymentHash : Nat) (amount : Int) (preimage : Nat)
  | linkStarted (chanID : Nat)
  | linkStop (chanID : Nat)
  | closeCb (peer : Nat)
  deriving DecidableEq, Repr

/-- The mutable state of the `Switch`: the link registry, the peer
index, the circuit map and the pending-payment table. -/
structure SwitchState : Type where
  links : List (Nat × ChannelLink)
  linksIndex : List (Nat × List ChannelLink)
  circuits : List PaymentCircuit
  pendingPayments : List (Nat × List PendingPayment)
  deriving DecidableEq, Repr

/-- `New`: the freshly constructed switch state. -/
def newSwitch : SwitchState :=
  { links := [], linksIndex := [], circuits := [], pendingPayments := [] }

/-- `getLink`: direct lookup in the `links` map. -/
def getLink (st : SwitchState) (chanID : Nat) : Option ChannelLink :=
  alookup st.links chanID

/-- Lookup of a packet source; the local sentinel is never registered. -/
def getLinkSrc (st : SwitchState) (src : Option Nat) : Option ChannelLink :=
  match src with
  | none => none
  | some c => getLink st c

/-- `getLinks`: the snapshot of a destination peer's link list; an
absent peer is an error (`none`). -/
def getLinksByDest (st : SwitchState) (destination : Nat) :
    Option (List ChannelLink) :=
  alookup st.linksIndex destination

/-- `findPayment`: first pending record for the hash with the matching
amount, read under the read lock. -/
def findPayment (st : SwitchState) (amount : Int) (hash : Nat) :
    Option PendingPayment :=
  match alookup st.pendingPayments hash with
  | none => none
  | some payments => payments.find? (fun p => p.amount = amount)

/-- The pending-payment insertion performed at the top of `SendHTLC`:
`s.pendingPayments[hash] = append(s.pendingPayments[hash], payment)`. -/
def addPendingPayment (st : SwitchState) (hash : Nat) (amount : Int) :
    SwitchState :=
  let payments := (alookup st.pendingPayments hash).getD []
  let payment : PendingPayment := { paymentHash := hash, amount := amount }
  { st with pendingPayments :=
      ainsert st.pendingPayments hash (payments ++ [payment]) }

/-- `removePendingPayment`: swap-remove the first record with the given
amount from the hash bucket, deleting the bucket when it empties. -/
def removePendingPayment (st : SwitchState) (amount : Int) (hash : Nat) :
    SwitchState × Option Err :=
  match alookup st.pendingPayments hash with
  | none => (st, some .removePendingFailed)
  | some payments =>
    match swapRemoveFirst (fun p => p.amount = amount) payments with
    | none => (st, some .removePendingFailed)
    | some remaining =>
      if remaining = [] then
        ({ st with pendingPayments := aerase st.pendingPayments hash }, none)
      else
        ({ st with pendingPayments := ainsert st.pendingPayments hash remaining },
         none)

/-- The destination-selection loop shared by both dispatch paths: the
first link whose `Bandwidth()` covers the amount. -/
def pickDestination (links : List ChannelLink) (amount : Int) :
    Option ChannelLink :=
  links.find? (fun link => amount ≤ link.bandwidth)

/-- `handleLocalDispatch`: outbound injection of a local Add, or
finalization of a local payment by the returning Settle or Fail. -/
def handleLocalDispatch (st : SwitchState) (payment : PendingPayment)
    (packet : HtlcPacket) : SwitchState × List Event × Option Err :=
  match packet.htlc with
  | .add _ amount =>
    match getLinksByDest st packet.dest with
    | none => (st, [], some (.failCode .unknownDestination))
    | some links =>
      match pickDestination links amount with
      | none => (st, [], some (.failCode .insufficientCapacity))
      | some destination => (st, [.offer destination.chanID packet], none)
  | .settle preimage =>
    let evs := [Event.writeErr payment.paymentHash payment.amount none,
                Event.writePre payment.paymentHash payment.amount preimage]
    ((removePendingPayment st payment.amount payment.paymentHash).1, evs, none)
  | .fail id reason =>
    let userErr : Err :=
      match toFailCode reason with
      | none => .decodeFailCode id
      | some code => .failCode code
    let evs := [Event.writeErr payment.paymentHash payment.amount (some userErr),
                Event.writePre payment.paymentHash payment.amount 0]
    ((removePendingPayment st payment.amount payment.paymentHash).1, evs, none)
  | .other => (st, [], some .wrongUpdateType)

/-- `handlePacketForward`: forward a peer-originated Add (creating the
circuit) or route a returning Settle or Fail back along its circuit. -/
def handlePacketForward (st : SwitchState) (packet : HtlcPacket) :
    SwitchState × List Event × Option Err :=
  match packet.htlc with
  | .add paymentHash amount =>
    match getLinkSrc st packet.src with
    | none => (st, [], some .srcLinkNotFound)
    | some source =>
      match getLinksByDest st packet.dest with
      | none =>
        let reason := [FailCode.toByte .unknownDestination]
        (st, [.offerAsync source.chanID
                (newFailPacket packet.src 0 reason paymentHash 0)],
         some .noLinksForDest)
      | some links =>
        match pickDestination links amount with
        | none =>
          let reason := [FailCode.toByte .insufficientCapacity]
          (st, [.offerAsync source.chanID
                  (newFailPacket packet.src 0 reason paymentHash 0)],
           some .insufficientCap)
        | some destination =>
          match circuitAdd st.circuits
              { src := source.chanID, dest := destination.chanID,
                payHash := paymentHash } with
          | none =>
            let reason := [FailCode.toByte .unknownError]
            (st, [.offerAsync source.chanID
                    (newFailPacket packet.src 0 reason paymentHash 0)],
             some .circuitAddFailed)
          | some circuits =>
            ({ st with circuits := circuits },
             [.offer destination.chanID packet], none)
  | .settle _ | .fail _ _ =>
    match circuitRemove st.circuits packet.payHash with
    | none => (st, [], some .circuitNotFound)
    | some (circuit, circuits) =>
      match getLink st circuit.src with
      | none => ({ st with circuits := circuits }, [], some .settleSourceGone)
      | some source =>
        ({ st with circuits := circuits }, [.offer source.chanID packet], none)
  | .other => (st, [], some .wrongUpdateType)

/-- `addLink`: start the link, then register it in both maps. -/
def addLink (st : SwitchState) (link : ChannelLink) :
    SwitchState × List Event × Option Err :=
  if link.startOk then
    let links := ainsert st.links link.chanID link
    let peerLinks := (alookup st.linksIndex link.peer).getD []
    let linksIndex := ainsert st.linksIndex link.peer (peerLinks ++ [link])
    ({ st with links := links, linksIndex := linksIndex },
     [.linkStarted link.chanID], none)
  else
    (st, [], some .linkStartFailed)

/-- `removeLink`: drop the link from the `links` map, swap-remove it
from its peer's index list (deleting the peer entry when the list
empties), and stop it on a detached task. -/
def removeLink (st : SwitchState) (chanID : Nat) :
    SwitchState × List Event × Option Err :=
  match alookup st.links chanID with
  | none => (st, [], some .chanLinkNotFound)
  | some link =>
    let links := aerase st.links link.chanID
    let peerLinks := (alookup st.linksIndex link.peer).getD []
    let linksIndex :=
      match swapRemoveFirst (fun l => l.chanID = link.chanID) peerLinks with
      | none => st.linksIndex
      | some remaining =>
        if remaining = [] then aerase st.linksIndex link.peer
        else ainsert st.linksIndex link.peer remaining
    ({ st with links := links, linksIndex := linksIndex },
     [.linkStop link.chanID], none)

/-- The pre-classification the forwarder performs on a forward command:
the payment hash and amount used for the pending-payment lookup, `none`
for an unrecognized update type. -/
def classifyPacket (packet : HtlcPacket) : Option (Nat × Int) :=
  match packet.htlc with
  | .add paymentHash amount => some (paymentHash, amount)
  | .settle _ | .fail _ _ => some (packet.payHash, packet.amount)
  | .other => none

/-- One forward command processed by the forwarder loop.  The `Bool`
records whether the loop keeps running afterwards: the unrecognized
update type replies and then returns from `htlcForwarder`. -/
def forwardCmdStep (st : SwitchState) (packet : HtlcPacket) :
    SwitchState × List Event × Option Err × Bool :=
  match classifyPacket packet with
  | none => (st, [], some .wrongTypeOfUpdate, false)
  | some (paymentHash, amount) =>
    match findPayment st amount paymentHash with
    | some payment =>
      let r := handleLocalDispatch st payment packet
      (r.1, r.2.1, r.2.2, true)
    | none =>
      let r := handlePacketForward st packet
      (r.1, r.2.1, r.2.2, true)

/-- The deferred shutdown teardown: `removeLink` applied to every
channel id found in the `links` map. -/
def removeAllLinks (st : SwitchState) : List Nat → SwitchState × List Event
  | [] => (st, [])
  | c :: cs =>
    let r := removeLink st c
    let rest := removeAllLinks r.1 cs
    (rest.1, r.2.1 ++ rest.2)

/-- Teardown over the snapshot of registered channel ids. -/
def teardown (st : SwitchState) : SwitchState × List Event :=
  removeAllLinks st (st.links.map (fun e => e.1))

/-- Inputs multiplexed by the forwarder loop (the stats tick and the
channel-close command mutate no routing state and are omitted). -/
inductive LoopInput : Type
  | fwd (packet : HtlcPacket)
  | addL (link : ChannelLink)
  | remL (chanID : Nat)
  | quit
  deriving DecidableEq, Repr

/-- Observable loop outputs: a command reply or a handler event. -/
inductive Output : Type
  | reply (e : Option Err)
  | ev (e : Event)
  deriving DecidableEq, Repr

/-- `htlcForwarder` on a finite input schedule.  The returned `Bool` is
true when the loop returned (running its deferred teardown), false when
it is still waiting for further input. -/
def runLoop (st : SwitchState) : List LoopInput → SwitchState × List Output × Bool
  | [] => (st, [], false)
  | .quit :: _ =>
    let t := teardown st
    (t.1, t.2.map .ev, true)
  | .fwd packet :: rest =>
    let r := forwardCmdStep st packet
    if r.2.2.2 then
      let k := runLoop r.1 rest
      (k.1, r.2.1.map .ev ++ [.reply r.2.2.1] ++ k.2.1, k.2.2)
    else
      let t := teardown r.1
      (t.1, r.2.1.map .ev ++ [.reply r.2.2.1] ++ t.2.map .ev, true)
  | .addL link :: rest =>
    let r := addLink st link
    let k := runLoop r.1 rest
    (k.1, r.2.1.map .ev ++ [.reply r.2.2] ++ k.2.1, k.2.2)
  | .remL chanID :: rest =>
    let r := removeLink st chanID
    let k := runLoop r.1 rest
    (k.1, r.2.1.map .ev ++ [.reply r.2.2] ++ k.2.1, k.2.2)

/-- The lifecycle flags of the switch (`started`, `shutdown`, the
`quit` channel) together with instrumentation counting spawned dispatch
loops and closes of the quit channel. -/
structure Lifecycle : Type where
  started : Bool
  stopped : Bool
  quitClosed : Bool
  loops : Nat
  quitCloses : Nat
  deriving DecidableEq, Repr

/-- The lifecycle state of a freshly constructed switch. -/
def newLifecycle : Lifecycle :=
  { started := false, stopped := false, quitClosed := false,
    loops := 0, quitCloses := 0 }

/-- `Start`: compare-and-swap on the started flag; only the winning
call spawns the forwarder goroutine.  Both calls return nil. -/
def startSwitch (lc : Lifecycle) : Lifecycle × Option Err :=
  if lc.started then (lc, none)
  else ({ lc with started := true, loops := lc.loops + 1 }, none)

/-- `Stop`: compare-and-swap on the shutdown flag; only the winning
call closes the quit channel.  Both calls return nil. -/
def stopSwitch (lc : Lifecycle) : Lifecycle × Option Err :=
  if lc.stopped then (lc, none)
  else
    let next := { lc with stopped := true, quitClosed := true }
    ({ next with quitCloses := lc.quitCloses + 1 }, none)

/-- `forward` as seen by a facade caller: once the quit channel is
closed (and the loop has exited) the select takes the quit branch and
returns the stopped error; otherwise the command reaches the loop. -/
def forwardFacade (quitClosed : Bool) (st : SwitchState) (packet : HtlcPacket) :
    SwitchState × List Event × Option Err :=
  if quitClosed then (st, [], some .switchStopped)
  else
    let r := forwardCmdStep st packet
    (r.1, r.2.1, r.2.2.1)

/-- `AddLink` facade. -/
def addLinkFacade (quitClosed : Bool) (st : SwitchState) (link : ChannelLink) :
    SwitchState × List Event × Option Err :=
  if quitClosed then (st, [], some .switchStopped)
  else addLink st link

/-- `RemoveLink` facade. -/
def removeLinkFacade (quitClosed : Bool) (st : SwitchState) (chanID : Nat) :
    SwitchState × List Event × Option Err :=
  if quitClosed then (st, [], some .switchStopped)
  else removeLink st chanID

/-- `GetLink` facade. -/
def getLinkFacade (quitClosed : Bool) (st : SwitchState) (chanID : Nat) :
    Option ChannelLink × Option Err :=
  if quitClosed then (none, some .switchStopped)
  else
    match getLink st chanID with
    | none => (none, some .chanLinkNotFound)
    | some link => (some link, none)

/-- `GetLinks` facade. -/
def getLinksFacade (quitClosed : Bool) (st : SwitchState) (hop : Nat) :
    Option (List ChannelLink) × Option Err :=
  if quitClosed then (none, some .switchStopped)
  else
    match getLinksByDest st hop with
    | none => (none, some .noPeerLinks)
    | some links => (some links, none)

/-- `handleChanelClose`: scan the `links` map for the owning link (the
Go loop keeps the last match) and invoke the close callback, or reply
not-found. -/
def handleChanClose (st : SwitchState) (chanID : Nat) :
    List Event × Option Err :=
  match ((st.links.map (fun e => e.2)).filter
      (fun l => l.chanID = chanID)).getLast? with
  | none => ([], some .closeNotFound)
  | some link => ([.closeCb link.peer], none)

/-- `CloseLink` facade: after stop the error channel receives the
already-stopped error; otherwise the close command reaches the loop. -/
def closeLinkFacade (quitClosed : Bool) (st : SwitchState) (chanID : Nat) :
    List Event × Option Err :=
  if quitClosed then ([], some .closeStopped)
  else handleChanClose st chanID

/-- Scan for the value delivered by the first error-slot write,
returning also the later events. -/
def firstErrSlot : List Event → Option (Option Err × List Event)
  | [] => none
  | .writeErr _ _ e :: rest => some (e, rest)
  | _ :: rest => firstErrSlot rest

/-- Scan for the value delivered by the first preimage-slot write. -/
def firstPreSlot : List Event → Option Nat
  | [] => none
  | .writePre _ _ p :: _ => some p
  | _ :: rest => firstPreSlot rest

/-- The await phase of `SendHTLC`: receive from the error slot first,
then from the preimage slot; `none` when a slot is never written (the
caller then blocks until the quit channel closes). -/
def awaitSlots (evs : List Event) : Option (Option Err × Nat) :=
  match firstErrSlot evs with
  | none => none
  | some (e, rest) =>
    match firstPreSlot rest with
    | none => none
    | some p => some (e, p)

/-- `SendHTLC`: insert the pending record, forward the init packet
(removing the record on any pre-dispatch error), then await the error
and preimage slots.  `resolution` is the event list produced by the
later local dispatch of the returning Settle or Fail, `none` when the
quit channel closes first. -/
def sendHTLC (quitClosed : Bool) (st : SwitchState) (nextNode : Nat)
    (hash : Nat) (amount : Int) (resolution : Option (List Event)) :
    SwitchState × List Event × Nat × Option Err :=
  let st1 := addPendingPayment st hash amount
  let packet := newInitPacket nextNode hash amount
  if quitClosed then
    ((removePendingPayment st1 amount hash).1, [], 0, some .switchStopped)
  else
    let r := forwardCmdStep st1 packet
    match r.2.2.1 with
    | some e => ((removePendingPayment r.1 amount hash).1, r.2.1, 0, some e)
    | none =>
      match resolution with
      | none => (r.1, r.2.1, 0, some .serviceShutdown)
      | some resEvents =>
        match awaitSlots resEvents with
        | none => (r.1, r.2.1, 0, some .serviceShutdown)
        | some er => (r.1, r.2.1, er.2, er.1)

/-! ### Association-list lemmas -/

/-- The keys of an association list. -/
def keysOf {α : Type} (xs : List (Nat × α)) : List Nat :=
  xs.map (fun e => e.1)

theorem keysOf_nil {α : Type} : keysOf ([] : List (Nat × α)) = [] :=
  rfl

theorem keysOf_cons {α : Type} (e : Nat × α) (t : List (Nat × α)) :
    keysOf (e :: t) = e.1 :: keysOf t :=
  rfl

theorem keysOf_append {α : Type} (xs ys : List (Nat × α)) :
    keysOf (xs ++ ys) = keysOf xs ++ keysOf ys := by
  simp [keysOf]

theorem alookup_nil {α : Type} (k : Nat) : alookup ([] : List (Nat × α)) k = none :=
  rfl

theorem alookup_cons {α : Type} (e : Nat × α) (xs : List (Nat × α)) (k : Nat) :
    alookup (e :: xs) k = if e.1 = k then some e.2 else alookup xs k := by
  by_cases h : e.1 = k <;> simp [alookup, List.find?_cons, h]

theorem any_key {α : Type} (xs : List (Nat × α)) (k : Nat) :
    xs.any (fun e => e.1 = k) = decide (k ∈ keysOf xs) := by
  induction xs with
  | nil => simp [keysOf]
  | cons e t ih =>
    rw [List.any_cons, ih, keysOf_cons]
    by_cases h : e.1 = k
    · subst h
      simp
    · have hk : ¬ k = e.1 := fun hq => h hq.symm
      simp [h, hk]

theorem ainsert_eq {α : Type} (xs : List (Nat × α)) (k : Nat) (v : α) :
    ainsert xs k v =
      if k ∈ keysOf xs then xs.map (fun e => if e.1 = k then (k, v) else e)
      else xs ++ [(k, v)] := by
  unfold ainsert
  rw [any_key]
  by_cases h : k ∈ keysOf xs <;> simp [h]

theorem aerase_cons_eq {α : Type} {e : Nat × α} {t : List (Nat × α)} {k : Nat}
    (he : e.1 = k) : aerase (e :: t) k = aerase t k := by
  simp [aerase, List.filter_cons, he]

theorem aerase_cons_ne {α : Type} {e : Nat × α} {t : List (Nat × α)} {k : Nat}
    (he : ¬ e.1 = k) : aerase (e :: t) k = e :: aerase t k := by
  simp [aerase, List.filter_cons, he]

theorem aerase_append {α : Type} (xs ys : List (Nat × α)) (k : Nat) :
    aerase (xs ++ ys) k = aerase xs k ++ aerase ys k := by
  simp [aerase, List.filter_append]

theorem alookup_eq_none_iff {α : Type} (xs : List (Nat × α)) (k : Nat) :
    alookup xs k = none ↔ k ∉ keysOf xs := by
  induction xs with
  | nil => simp [alookup, keysOf]
  | cons e t ih =>
    rw [alookup_cons, keysOf_cons]
    by_cases h : e.1 = k
    · subst h
      simp
    · have hk : ¬ k = e.1 := fun hq => h hq.symm
      simp only [h, if_false, List.mem_cons, hk, false_or]
      exact ih

theorem alookup_isSome_of_mem_keys {α : Type} {xs : List (Nat × α)} {k : Nat}
    (h : k ∈ keysOf xs) : ∃ v, alookup xs k = some v := by
  cases hv : alookup xs k with
  | none => exact absurd ((alookup_eq_none_iff xs k).1 hv) (by simp [h])
  | some v => exact ⟨v, rfl⟩

theorem mem_keys_of_alookup {α : Type} {xs : List (Nat × α)} {k : Nat} {v : α}
    (h : alookup xs k = some v) : k ∈ keysOf xs := by
  by_contra hk
  rw [← alookup_eq_none_iff] at hk
  rw [h] at hk
  exact Option.noConfusion hk

theorem mem_of_alookup_eq_some {α : Type} {xs : List (Nat × α)} {k : Nat}
    {v : α} (h : alookup xs k = some v) : (k, v) ∈ xs := by
  induction xs with
  | nil => exact absurd h (by simp [alookup])
  | cons e t ih =>
    rw [alookup_cons] at h
    by_cases he : e.1 = k
    · rw [if_pos he] at h
      have : e = (k, v) := by
        cases e
        simp at he h
        simp [he, h]
      exact this ▸ List.mem_cons_self e t
    · rw [if_neg he] at h
      exact List.mem_cons_of_mem _ (ih h)

theorem alookup_append_right {α : Type} (xs ys : List (Nat × α)) (k : Nat)
    (h : k ∉ keysOf xs) : alookup (xs ++ ys) k = alookup ys k := by
  induction xs with
  | nil => rfl
  | cons e t ih =>
    rw [keysOf_cons] at h
    have he : ¬ e.1 = k := fun hq => h (hq ▸ List.mem_cons_self _ _)
    have ht : k ∉ keysOf t := fun hq => h (List.mem_cons_of_mem _ hq)
    rw [List.cons_append, alookup_cons, if_neg he, ih ht]

theorem alookup_ainsert_self {α : Type} (xs : List (Nat × α)) (k : Nat) (v : α) :
    alookup (ainsert xs k v) k = some v := by
  rw [ainsert_eq]
  by_cases h : k ∈ keysOf xs
  · rw [if_pos h]
    induction xs with
    | nil => simp [keysOf] at h
    | cons e t ih =>
      by_cases he : e.1 = k
      · simp only [List.map_cons, if_pos he]
        rw [alookup_cons]
        simp
      · rw [keysOf_cons] at h
        have ht : k ∈ keysOf t := by
          rcases List.mem_cons.1 h with hq | hq
          · exact absurd hq.symm he
          · exact hq
        simp only [List.map_cons, if_neg he]
        rw [alookup_cons, if_neg he, ih ht]
  · rw [if_neg h]
    rw [alookup_append_right xs [(k, v)] k h, alookup_cons]
    simp

theorem alookup_ainsert_ne {α : Type} (xs : List (Nat × α)) (k k' : Nat)
    (v : α) (hne : ¬ k' = k) : alookup (ainsert xs k v) k' = alookup xs k' := by
  have h2 : ¬ k = k' := fun hq => hne hq.symm
  rw [ainsert_eq]
  by_cases h : k ∈ keysOf xs
  · rw [if_pos h]
    clear h
    induction xs with
    | nil => rfl
    | cons e t ih =>
      by_cases he : e.1 = k
      · have h3 : ¬ e.1 = k' := he ▸ h2
        simp only [List.map_cons, if_pos he]
        rw [alookup_cons, alookup_cons, if_neg h2, if_neg h3, ih]
      · simp only [List.map_cons, if_neg he]
        rw [alookup_cons, alookup_cons, ih]
  · rw [if_neg h]
    clear h
    induction xs with
    | nil =>
      rw [List.nil_append, alookup_cons, if_neg h2]
    | cons e t ih =>
      rw [List.cons_append, alookup_cons, alookup_cons, ih]

theorem mem_aerase {α : Type} (xs : List (Nat × α)) (k : Nat) (e : Nat × α) :
    e ∈ aerase xs k ↔ e ∈ xs ∧ ¬ e.1 = k := by
  simp [aerase, List.mem_filter]

theorem keysOf_aerase_not_mem {α : Type} (xs : List (Nat × α)) (k : Nat) :
    k ∉ keysOf (aerase xs k) := by
  intro hmem
  simp only [keysOf, List.mem_map] at hmem
  obtain ⟨e, he, hk⟩ := hmem
  rw [mem_aerase] at he
  exact he.2 hk

theorem alookup_aerase_self {α : Type} (xs : List (Nat × α)) (k : Nat) :
    alookup (aerase xs k) k = none :=
  (alookup_eq_none_iff _ _).2 (keysOf_aerase_not_mem xs k)

theorem alookup_aerase_ne {α : Type} (xs : List (Nat × α)) (k k' : Nat)
    (hne : ¬ k' = k) : alookup (aerase xs k) k' = alookup xs k' := by
  induction xs with
  | nil => simp [aerase]
  | cons e t ih =>
    by_cases he : e.1 = k
    · have h2 : ¬ e.1 = k' := by rw [he]; exact fun hq => hne hq.symm
      rw [aerase_cons_eq he, alookup_cons, if_neg h2, ih]
    · rw [aerase_cons_ne he, alookup_cons, alookup_cons, ih]

theorem aerase_eq_self {α : Type} (xs : List (Nat × α)) (k : Nat)
    (h : k ∉ keysOf xs) : aerase xs k = xs := by
  induction xs with
  | nil => rfl
  | cons e t ih =>
    rw [keysOf_cons] at h
    have he : ¬ e.1 = k := fun hq => h (hq ▸ List.mem_cons_self _ _)
    have ht : k ∉ keysOf t := fun hq => h (List.mem_cons_of_mem _ hq)
    rw [aerase_cons_ne he, ih ht]

theorem aerase_ainsert {α : Type} (xs : List (Nat × α)) (k : Nat) (v : α) :
    aerase (ainsert xs k v) k = aerase xs k := by
  rw [ainsert_eq]
  by_cases h : k ∈ keysOf xs
  · rw [if_pos h]
    clear h
    induction xs with
    | nil => rfl
    | cons e t ih =>
      by_cases he : e.1 = k
      · simp only [List.map_cons, if_pos he]
        rw [aerase_cons_eq rfl, aerase_cons_eq he, ih]
      · simp only [List.map_cons, if_neg he]
        rw [aerase_cons_ne he, aerase_cons_ne he, ih]
  · rw [if_neg h]
    rw [aerase_append, aerase_eq_self xs k h, aerase_cons_eq rfl]
    simp [aerase]

theorem keysOf_ainsert_present {α : Type} (xs : List (Nat × α)) (k : Nat)
    (v : α) (h : k ∈ keysOf xs) : keysOf (ainsert xs k v) = keysOf xs := by
  rw [ainsert_eq, if_pos h]
  clear h
  induction xs with
  | nil => rfl
  | cons e t ih =>
    by_cases he : e.1 = k
    · simp only [List.map_cons, if_pos he]
      rw [keysOf_cons, keysOf_cons, ih, he]
    · simp only [List.map_cons, if_neg he]
      rw [keysOf_cons, keysOf_cons, ih]

theorem keysOf_ainsert_absent {α : Type} (xs : List (Nat × α)) (k : Nat)
    (v : α) (h : k ∉ keysOf xs) : keysOf (ainsert xs k v) = keysOf xs ++ [k] := by
  rw [ainsert_eq, if_neg h, keysOf_append]
  rfl

theorem mem_ainsert {α : Type} {xs : List (Nat × α)} {k : Nat} {v : α}
    {e : Nat × α} (h : e ∈ ainsert xs k v) : e = (k, v) ∨ (e ∈ xs ∧ ¬ e.1 = k) := by
  rw [ainsert_eq] at h
  by_cases hk : k ∈ keysOf xs
  · rw [if_pos hk] at h
    rw [List.mem_map] at h
    obtain ⟨x, hx, hfx⟩ := h
    by_cases hxk : x.1 = k
    · rw [if_pos hxk] at hfx
      exact Or.inl hfx.symm
    · rw [if_neg hxk] at hfx
      exact Or.inr ⟨hfx ▸ hx, hfx ▸ hxk⟩
  · rw [if_neg hk] at h
    rcases List.mem_append.1 h with h1 | h1
    · by_cases hek : e.1 = k
      · exact absurd (hek ▸ List.mem_map_of_mem (fun q => q.1) h1) hk
      · exact Or.inr ⟨h1, hek⟩
    · exact Or.inl (List.mem_singleton.1 h1)

theorem map_id_of_no_key {α : Type} {t : List (Nat × α)} {k : Nat} {v : α}
    (ht : k ∉ keysOf t) :
    t.map (fun e => if e.1 = k then (k, v) else e) = t := by
  induction t with
  | nil => rfl
  | cons e s ih =>
    rw [keysOf_cons] at ht
    have he : ¬ e.1 = k := fun hq => ht (hq ▸ List.mem_cons_self _ _)
    have hs : k ∉ keysOf s := fun hq => ht (List.mem_cons_of_mem _ hq)
    simp only [List.map_cons, if_neg he]
    rw [ih hs]

theorem ainsert_lookup_self {α : Type} {xs : List (Nat × α)} {k : Nat} {v : α}
    (hnd : (keysOf xs).Nodup) (h : alookup xs k = some v) :
    ainsert xs k v = xs := by
  have hk : k ∈ keysOf xs := mem_keys_of_alookup h
  rw [ainsert_eq, if_pos hk]
  clear hk
  induction xs with
  | nil => rfl
  | cons e t ih =>
    rw [alookup_cons] at h
    rw [keysOf_cons, List.nodup_cons] at hnd
    by_cases he : e.1 = k
    · rw [if_pos he] at h
      have hev : e = (k, v) := by
        cases e
        simp at he h
        simp [he, h]
      have ht : k ∉ keysOf t := he ▸ hnd.1
      simp only [List.map_cons, if_pos he]
      rw [map_id_of_no_key ht, hev]
    · rw [if_neg he] at h
      simp only [List.map_cons, if_neg he]
      rw [ih hnd.2 h]

theorem ainsert_ainsert_same {α : Type} (xs : List (Nat × α)) (k : Nat)
    (v w : α) : ainsert (ainsert xs k v) k w = ainsert xs k w := by
  by_cases h : k ∈ keysOf xs
  · have h1 : k ∈ keysOf (ainsert xs k v) := by
      rw [keysOf_ainsert_present xs k v h]
      exact h
    rw [ainsert_eq (ainsert xs k v) k w, if_pos h1, ainsert_eq xs k v,
      if_pos h, List.map_map, ainsert_eq xs k w, if_pos h]
    apply List.map_congr_left
    intro e he2
    by_cases hek : e.1 = k <;> simp [hek]
  · have h1 : k ∈ keysOf (ainsert xs k v) := by
      rw [keysOf_ainsert_absent xs k v h]
      simp
    rw [ainsert_eq (ainsert xs k v) k w, if_pos h1, ainsert_eq xs k v,
      if_neg h, List.map_append, ainsert_eq xs k w, if_neg h]
    congr 1
    · exact map_id_of_no_key h
    · simp

/-! ### Swap-remove lemmas -/

theorem swapRemove_singleton {α : Type} (a : α) : swapRemove [a] 0 = [] :=
  rfl

theorem swapRemove_cons {α : Type} (x : α) {ys : List α} (hys : ys ≠ [])
    (i : Nat) : swapRemove (x :: ys) (i + 1) = x :: swapRemove ys i := by
  cases ys with
  | nil => exact absurd rfl hys
  | cons y t =>
    show swapRemove (x :: y :: t) (i + 1) = x :: swapRemove (y :: t) i
    unfold swapRemove
    rw [List.getLast?_cons_cons]
    cases h : (y :: t).getLast? with
    | none => exact absurd (List.getLast?_eq_none_iff.1 h) (List.cons_ne_nil y t)
    | some last =>
      cases i with
      | zero => rfl
      | succ j => rfl

theorem swapRemove_concat_zero {α : Type} (x : α) (t : List α) (a : α) :
    swapRemove (x :: (t ++ [a])) 0 = a :: t := by
  unfold swapRemove
  have hlast : (x :: (t ++ [a])).getLast? = some a := by
    rw [show x :: (t ++ [a]) = (x :: t) ++ [a] from rfl]
    exact List.getLast?_concat _
  rw [hlast]
  show ((a :: (t ++ [a])).dropLast) = a :: t
  rw [show a :: (t ++ [a]) = (a :: t) ++ [a] from rfl, List.dropLast_concat]

theorem swapRemoveFirst_append_single {α : Type} [DecidableEq α]
    (p : α → Bool) (xs : List α) (a : α) (ha : p a = true)
    (hall : ∀ x ∈ xs, p x = true → x = a) :
    swapRemoveFirst p (xs ++ [a]) = some xs := by
  induction xs with
  | nil =>
    show (firstMatchIdx p [a]).map (swapRemove [a]) = some []
    rw [show firstMatchIdx p [a] = some 0 by simp [firstMatchIdx, ha]]
    exact congrArg some (swapRemove_singleton a)
  | cons x t ih =>
    show (firstMatchIdx p (x :: (t ++ [a]))).map
        (swapRemove (x :: (t ++ [a]))) = some (x :: t)
    by_cases hx : p x = true
    · have hxa : x = a := hall x (List.mem_cons_self x t) hx
      rw [show firstMatchIdx p (x :: (t ++ [a])) = some 0 by
        simp [firstMatchIdx, hx]]
      refine congrArg some ?_
      rw [swapRemove_concat_zero, hxa]
    · have ih2 := ih (fun y hy hp => hall y (List.mem_cons_of_mem x hy) hp)
      cases hidx : firstMatchIdx p (t ++ [a]) with
      | none =>
        have : swapRemoveFirst p (t ++ [a]) = none := by
          show (firstMatchIdx p (t ++ [a])).map (swapRemove (t ++ [a])) = none
          rw [hidx]
          rfl
        rw [ih2] at this
        exact absurd this (by simp)
      | some j =>
        have hsw : swapRemove (t ++ [a]) j = t := by
          have : swapRemoveFirst p (t ++ [a]) =
              some (swapRemove (t ++ [a]) j) := by
            show (firstMatchIdx p (t ++ [a])).map (swapRemove (t ++ [a])) = _
            rw [hidx]
            rfl
          rw [ih2] at this
          exact (Option.some_inj.1 this).symm
        rw [show firstMatchIdx p (x :: (t ++ [a])) = some (j + 1) by
          simp [firstMatchIdx, hx, hidx]]
        refine congrArg some ?_
        rw [swapRemove_cons x (by simp) j, hsw]

/-! ### Pending-payment table lemmas -/

/-- Well-formedness of the pending-payment table: one bucket per hash,
no empty buckets, records bucketed under their own hash. -/
def WFPending (st : SwitchState) : Prop :=
  (keysOf st.pendingPayments).Nodup ∧
  ∀ e ∈ st.pendingPayments, e.2 ≠ [] ∧ ∀ q ∈ e.2, q.paymentHash = e.1

theorem removePendingPayment_addPendingPayment (st : SwitchState)
    (hash : Nat) (amount : Int) (hWF : WFPending st) :
    (removePendingPayment (addPendingPayment st hash amount) amount hash).1 = st := by
  obtain ⟨hnd, hbuckets⟩ := hWF
  cases st with
  | mk links linksIndex circuits pp =>
    simp only at hnd hbuckets
    set payments := (alookup pp hash).getD [] with hpay
    have hrec : ∀ x ∈ payments, (fun p => decide (p.amount = amount)) x = true →
        x = PendingPayment.mk hash amount := by
      intro x hx hpx
      cases hlk : alookup pp hash with
      | none => rw [hpay, hlk] at hx; exact absurd hx (List.not_mem_nil x)
      | some ps =>
        have hxps : x ∈ ps := by rw [hpay, hlk] at hx; exact hx
        have hmem := mem_of_alookup_eq_some hlk
        have hq := (hbuckets (hash, ps) hmem).2 x hxps
        simp only at hq
        have hamt : x.amount = amount := of_decide_eq_true hpx
        cases x
        simp only at hq hamt
        rw [hq, hamt]
    have hlook : alookup (ainsert pp hash
        (payments ++ [PendingPayment.mk hash amount])) hash =
        some (payments ++ [PendingPayment.mk hash amount]) :=
      alookup_ainsert_self pp hash _
    have hsw : swapRemoveFirst (fun p => p.amount = amount)
        (payments ++ [PendingPayment.mk hash amount]) = some payments :=
      swapRemoveFirst_append_single _ payments _ (by simp) hrec
    simp only [addPendingPayment, removePendingPayment]
    rw [hlook]
    simp only [hsw]
    by_cases hemp : payments = []
    · rw [if_pos hemp]
      have hnk : hash ∉ keysOf pp := by
        cases hlk : alookup pp hash with
        | none => exact (alookup_eq_none_iff pp hash).1 hlk
        | some ps =>
          have : ps ≠ [] := (hbuckets (hash, ps) (mem_of_alookup_eq_some hlk)).1
          rw [hpay, hlk] at hemp
          exact absurd hemp this
      simp only [SwitchState.mk.injEq, true_and]
      rw [aerase_ainsert, aerase_eq_self pp hash hnk]
    · rw [if_neg hemp]
      have hlk : alookup pp hash = some payments := by
        cases hlk : alookup pp hash with
        | none => rw [hpay, hlk] at hemp; exact absurd rfl hemp
        | some ps => rw [hpay, hlk]; rfl
      simp only [SwitchState.mk.injEq, true_and]
      rw [ainsert_ainsert_same, ainsert_lookup_self hnd hlk]

/-! ### Message classification helpers -/

/-- Whether a message is a Settle or a Fail. -/
def isSettleOrFail : HtlcMsg → Bool
  | .settle _ => true
  | .fail _ _ => true
  | _ => false

/-- Whether a circuit for the given payment hash is in flight. -/
def hasCircuit (st : SwitchState) (h : Nat) : Bool :=
  st.circuits.any (fun c => c.payHash = h)

/-- Recognizer for error-slot writes. -/
def Event.isWriteErr : Event → Bool
  | .writeErr _ _ _ => true
  | _ => false

/-- Recognizer for preimage-slot writes. -/
def Event.isWritePre : Event → Bool
  | .writePre _ _ _ => true
  | _ => false

/-! ### Claim theorems -/

/-- Claim C3: when a non-local Add cannot be forwarded — no links for
the destination hop, no candidate link with enough bandwidth, or a
failed circuit insert — the switch offers a Fail packet back to the
source link carrying the matching reason code (UnknownDestination,
InsufficientCapacity, UnknownError), returns an error to the caller,
and leaves the whole state (hence the circuit map) unchanged. -/
theorem forwarded_add_failure_handling (st : SwitchState) (pkt : HtlcPacket)
    (h : Nat) (amt : Int) (source : ChannelLink)
    (hmsg : pkt.htlc = .add h amt)
    (hsrc : getLinkSrc st pkt.src = some source) :
    (getLinksByDest st pkt.dest = none →
      handlePacketForward st pkt =
        (st, [.offerAsync source.chanID (newFailPacket pkt.src 0
          [FailCode.toByte .unknownDestination] h 0)],
         some .noLinksForDest)) ∧
    (∀ links, getLinksByDest st pkt.dest = some links →
      pickDestination links amt = none →
      handlePacketForward st pkt =
        (st, [.offerAsync source.chanID (newFailPacket pkt.src 0
          [FailCode.toByte .insufficientCapacity] h 0)],
         some .insufficientCap)) ∧
    (∀ links destination, getLinksByDest st pkt.dest = some links →
      pickDestination links amt = some destination →
      circuitAdd st.circuits
        { src := source.chanID, dest := destination.chanID, payHash := h } = none →
      handlePacketForward st pkt =
        (st, [.offerAsync source.chanID (newFailPacket pkt.src 0
          [FailCode.toByte .unknownError] h 0)],
         some .circuitAddFailed)) := by
  refine ⟨?_, ?_, ?_⟩
  · intro hdest
    simp [handlePacketForward, hmsg, hsrc, hdest]
  · intro links hdest hpick
    simp [handlePacketForward, hmsg, hsrc, hdest, hpick]
  · intro links destination hdest hpick hcirc
    simp [handlePacketForward, hmsg, hsrc, hdest, hpick, hcirc]

/-- Claim C3 witness: a concrete insufficient-capacity forward. -/
theorem forwarded_add_failure_handling_witness :
    (handlePacketForward
      { links := [(1, { chanID := 1, peer := 10, bandwidth := 100, startOk := true }),
                  (2, { chanID := 2, peer := 20, bandwidth := 10, startOk := true })],
        linksIndex := [(10, [{ chanID := 1, peer := 10, bandwidth := 100, startOk := true }]),
                       (20, [{ chanID := 2, peer := 20, bandwidth := 10, startOk := true }])],
        circuits := [], pendingPayments := [] }
      { src := some 1, dest := 20, payHash := 1, amount := 50, htlc := .add 1 50 } =
      ({ links := [(1, { chanID := 1, peer := 10, bandwidth := 100, startOk := true }),
                   (2, { chanID := 2, peer := 20, bandwidth := 10, startOk := true })],
         linksIndex := [(10, [{ chanID := 1, peer := 10, bandwidth := 100, startOk := true }]),
                        (20, [{ chanID := 2, peer := 20, bandwidth := 10, startOk := true }])],
         circuits := [], pendingPayments := [] },
       [.offerAsync 1 (newFailPacket (some 1) 0
          [FailCode.toByte .insufficientCapacity] 1 0)],
       some .insufficientCap)) := by
  have hthm := forwarded_add_failure_handling
    { links := [(1, { chanID := 1, peer := 10, bandwidth := 100, startOk := true }),
                (2, { chanID := 2, peer := 20, bandwidth := 10, startOk := true })],
      linksIndex := [(10, [{ chanID := 1, peer := 10, bandwidth := 100, startOk := true }]),
                     (20, [{ chanID := 2, peer := 20, bandwidth := 10, startOk := true }])],
      circuits := [], pendingPayments := [] }
    { src := some 1, dest := 20, payHash := 1, amount := 50, htlc := .add 1 50 }
    1 50 { chanID := 1, peer := 10, bandwidth := 100, startOk := true }
    (by decide) (by decide)
  exact hthm.2.1 [{ chanID := 2, peer := 20, bandwidth := 10, startOk := true }]
    (by decide) (by decide)

theorem countP_filter_not (cs : List PaymentCircuit) (h : Nat) :
    (cs.filter (fun x => ¬ x.payHash = h)).countP
      (fun x => x.payHash = h) = 0 := by
  rw [List.countP_eq_zero]
  intro a ha
  rw [List.mem_filter] at ha
  simpa using ha.2

/-- Claim C4: for a forwarded Settle or Fail, the circuit for the
packet's payment hash is removed (the state paired with the offer to
the recorded source link contains no circuit for that hash any more);
when no circuit exists the switch returns an error, drops the packet
(no events) and mutates no state. -/
theorem settle_fail_return_path (st : SwitchState) (pkt : HtlcPacket)
    (hmsg : isSettleOrFail pkt.htlc = true) :
    ((∀ c ∈ st.circuits, ¬ c.payHash = pkt.payHash) →
      handlePacketForward st pkt = (st, [], some .circuitNotFound)) ∧
    (∀ circuit rest source,
      circuitRemove st.circuits pkt.payHash = some (circuit, rest) →
      getLink st circuit.src = some source →
      handlePacketForward st pkt =
        ({ st with circuits := rest }, [.offer source.chanID pkt], none) ∧
      rest.countP (fun x => x.payHash = pkt.payHash) = 0) := by
  constructor
  · intro hnone
    have hrem : circuitRemove st.circuits pkt.payHash = none := by
      unfold circuitRemove
      rw [List.find?_eq_none.2 (by intro x hx; simpa using hnone x hx)]
    cases hm : pkt.htlc <;> rw [hm] at hmsg <;>
      simp [isSettleOrFail] at hmsg <;>
      simp [handlePacketForward, hm, hrem]
  · intro circuit rest source hrem hsrc
    have hrest : rest = st.circuits.filter (fun x => ¬ x.payHash = pkt.payHash) := by
      unfold circuitRemove at hrem
      cases hf : st.circuits.find? (fun x => x.payHash = pkt.payHash) with
      | none => rw [hf] at hrem; exact absurd hrem (by simp)
      | some c =>
        rw [hf] at hrem
        simp only [Option.some_inj, Prod.mk.injEq] at hrem
        exact hrem.2.symm
    refine ⟨?_, by rw [hrest]; exact countP_filter_not _ _⟩
    cases hm : pkt.htlc <;> rw [hm] at hmsg <;>
      simp [isSettleOrFail] at hmsg <;>
      simp [handlePacketForward, hm, hrem, hsrc]

/-- Claim C4 witness: resolving a concrete Settle through its circuit. -/
theorem settle_fail_return_path_witness :
    handlePacketForward
      { links := [(1, { chanID := 1, peer := 10, bandwidth := 100, startOk := true })],
        linksIndex := [(10, [{ chanID := 1, peer := 10, bandwidth := 100, startOk := true }])],
        circuits := [{ src := 1, dest := 2, payHash := 7 }],
        pendingPayments := [] }
      { src := some 2, dest := 0, payHash := 7, amount := 3, htlc := .settle 9 } =
      ({ links := [(1, { chanID := 1, peer := 10, bandwidth := 100, startOk := true })],
         linksIndex := [(10, [{ chanID := 1, peer := 10, bandwidth := 100, startOk := true }])],
         circuits := [], pendingPayments := [] },
       [.offer 1 { src := some 2, dest := 0, payHash := 7, amount := 3,
                   htlc := .settle 9 }],
       none) := by
  have hthm := settle_fail_return_path
    { links := [(1, { chanID := 1, peer := 10, bandwidth := 100, startOk := true })],
      linksIndex := [(10, [{ chanID := 1, peer := 10, bandwidth := 100, startOk := true }])],
      circuits := [{ src := 1, dest := 2, payHash := 7 }],
      pendingPayments := [] }
    { src := some 2, dest := 0, payHash := 7, amount := 3, htlc := .settle 9 }
    (by decide)
  exact (hthm.2 { src := 1, dest := 2, payHash := 7 } []
    { chanID := 1, peer := 10, bandwidth := 100, startOk := true }
    (by decide) (by decide)).1

/-- Claim C5: every local resolution writes the error slot first and the
preimage slot second, once each — Settle writes (nil error, preimage),
Fail writes (decoded failure, zero preimage) — and the `SendHTLC` await
phase reads them back in the same order. -/
theorem local_resolution_slot_ordering (st : SwitchState)
    (payment : PendingPayment) (pkt : HtlcPacket) :
    (∀ pre, pkt.htlc = .settle pre →
      (handleLocalDispatch st payment pkt).2.1 =
        [.writeErr payment.paymentHash payment.amount none,
         .writePre payment.paymentHash payment.amount pre] ∧
      awaitSlots (handleLocalDispatch st payment pkt).2.1 = some (none, pre)) ∧
    (∀ id reason, pkt.htlc = .fail id reason →
      (handleLocalDispatch st payment pkt).2.1 =
        [.writeErr payment.paymentHash payment.amount
           (some (match toFailCode reason with
                  | none => Err.decodeFailCode id
                  | some code => Err.failCode code)),
         .writePre payment.paymentHash payment.amount 0] ∧
      awaitSlots (handleLocalDispatch st payment pkt).2.1 =
        some (some (match toFailCode reason with
                    | none => Err.decodeFailCode id
                    | some code => Err.failCode code), 0)) ∧
    (isSettleOrFail pkt.htlc = true →
      (handleLocalDispatch st payment pkt).2.1.countP Event.isWriteErr = 1 ∧
      (handleLocalDispatch st payment pkt).2.1.countP Event.isWritePre = 1) := by
  refine ⟨?_, ?_, ?_⟩
  · intro pre hm
    simp [handleLocalDispatch, hm, awaitSlots, firstErrSlot, firstPreSlot]
  · intro id reason hm
    simp [handleLocalDispatch, hm, awaitSlots, firstErrSlot, firstPreSlot]
  · intro hsf
    cases hm : pkt.htlc <;> rw [hm] at hsf <;>
      simp [isSettleOrFail] at hsf <;>
      simp [handleLocalDispatch, hm, List.countP_cons, List.countP_nil,
        Event.isWriteErr, Event.isWritePre]

/-- Claim C5 witness: a concrete Settle resolution. -/
theorem local_resolution_slot_ordering_witness :
    (handleLocalDispatch newSwitch { paymentHash := 4, amount := 6 }
      { src := none, dest := 0, payHash := 4, amount := 6,
        htlc := .settle 11 }).2.1 =
      [.writeErr 4 6 none, .writePre 4 6 11] ∧
    awaitSlots (handleLocalDispatch newSwitch { paymentHash := 4, amount := 6 }
      { src := none, dest := 0, payHash := 4, amount := 6,
        htlc := .settle 11 }).2.1 = some (none, 11) :=
  (local_resolution_slot_ordering newSwitch { paymentHash := 4, amount := 6 }
    { src := none, dest := 0, payHash := 4, amount := 6,
      htlc := .settle 11 }).1 11 (by decide)

theorem find?_append_single {α : Type} (p : α → Bool) (xs : List α) (a : α)
    (ha : p a = true) (hall : ∀ x ∈ xs, p x = true → x = a) :
    (xs ++ [a]).find? p = some a := by
  induction xs with
  | nil => simp [List.find?_cons_of_pos, ha]
  | cons x t ih =>
    by_cases hx : p x = true
    · rw [List.cons_append, List.find?_cons_of_pos _ hx,
        hall x (List.mem_cons_self x t) hx]
    · rw [List.cons_append, List.find?_cons_of_neg _ (by simpa using hx)]
      exact ih (fun y hy hp => hall y (List.mem_cons_of_mem x hy) hp)

theorem bucket_records_eq (st : SwitchState) (hash : Nat) (amount : Int)
    (hWF : WFPending st) :
    ∀ x ∈ (alookup st.pendingPayments hash).getD [],
      (fun p => decide (p.amount = amount)) x = true →
      x = PendingPayment.mk hash amount := by
  intro x hx hpx
  cases hlk : alookup st.pendingPayments hash with
  | none => rw [hlk] at hx; exact absurd hx (List.not_mem_nil x)
  | some ps =>
    rw [hlk] at hx
    have hq := (hWF.2 (hash, ps) (mem_of_alookup_eq_some hlk)).2 x hx
    simp only at hq
    have hamt : x.amount = amount := of_decide_eq_true hpx
    cases x
    simp only at hq hamt
    rw [hq, hamt]

theorem findPayment_addPendingPayment (st : SwitchState) (hash : Nat)
    (amount : Int) (hWF : WFPending st) :
    findPayment (addPendingPayment st hash amount) amount hash =
      some (PendingPayment.mk hash amount) := by
  unfold findPayment addPendingPayment
  simp only
  rw [alookup_ainsert_self]
  exact find?_append_single _ _ _ (by simp) (bucket_records_eq st hash amount hWF)

theorem forwardCmdStep_init_state (st1 : SwitchState) (n hash : Nat)
    (amount : Int) (payment : PendingPayment)
    (hfind : findPayment st1 amount hash = some payment) :
    (forwardCmdStep st1 (newInitPacket n hash amount)).1 = st1 := by
  simp only [forwardCmdStep, classifyPacket, newInitPacket, hfind]
  cases hd : getLinksByDest st1 n with
  | none => simp [handleLocalDispatch, hd]
  | some links =>
    cases hpick : pickDestination links amount with
    | none => simp [handleLocalDispatch, hd, hpick]
    | some destination => simp [handleLocalDispatch, hd, hpick]

/-- Claim C6: `SendHTLC` returns (zero preimage, error) on any
pre-dispatch failure with the pending record it inserted removed again,
(zero preimage, the decoded error) on a failure resolution, and
(preimage, nil) on success. -/
theorem sendHTLC_result_contract (st : SwitchState) (nextNode hash : Nat)
    (amount : Int) :
    (∀ res, WFPending st →
      (sendHTLC true st nextNode hash amount res).2.2 =
        (0, some .switchStopped) ∧
      (sendHTLC true st nextNode hash amount res).1 = st) ∧
    (∀ res e, WFPending st →
      (forwardCmdStep (addPendingPayment st hash amount)
        (newInitPacket nextNode hash amount)).2.2.1 = some e →
      (sendHTLC false st nextNode hash amount res).2.2 = (0, some e) ∧
      (sendHTLC false st nextNode hash amount res).1 = st) ∧
    (∀ userErr,
      (forwardCmdStep (addPendingPayment st hash amount)
        (newInitPacket nextNode hash amount)).2.2.1 = none →
      (sendHTLC false st nextNode hash amount
        (some [.writeErr hash amount (some userErr),
               .writePre hash amount 0])).2.2 = (0, some userErr)) ∧
    (∀ pre,
      (forwardCmdStep (addPendingPayment st hash amount)
        (newInitPacket nextNode hash amount)).2.2.1 = none →
      (sendHTLC false st nextNode hash amount
        (some [.writeErr hash amount none,
               .writePre hash amount pre])).2.2 = (pre, none)) := by
  refine ⟨?_, ?_, ?_, ?_⟩
  · intro res hWF
    constructor
    · rfl
    · exact removePendingPayment_addPendingPayment st hash amount hWF
  · intro res e hWF herr
    have hfind := findPayment_addPendingPayment st hash amount hWF
    constructor
    · simp [sendHTLC, herr]
    · simp only [sendHTLC, if_neg (by simp : ¬ false = true), herr]
      rw [forwardCmdStep_init_state _ _ _ _ _ hfind]
      exact removePendingPayment_addPendingPayment st hash amount hWF
  · intro userErr hok
    simp [sendHTLC, hok, awaitSlots, firstErrSlot, firstPreSlot]
  · intro pre hok
    simp [sendHTLC, hok, awaitSlots, firstErrSlot, firstPreSlot]

/-- Claim C6 witness: a stopped switch rejects the send and leaves the
table as it was. -/
theorem sendHTLC_result_contract_witness :
    (sendHTLC true newSwitch 5 1 2 none).2.2 = (0, some .switchStopped) ∧
    (sendHTLC true newSwitch 5 1 2 none).1 = newSwitch :=
  (sendHTLC_result_contract newSwitch 5 1 2).1 none
    (by constructor <;> simp [newSwitch, keysOf])

/-- Claim C10: when shutdown fires while `SendHTLC` awaits its slots,
it returns (zero preimage, shutdown error) and its pending-payment
record remains in the table. -/
theorem shutdown_leaves_pending_record (st : SwitchState) (nextNode hash : Nat)
    (amount : Int) (hWF : WFPending st)
    (hok : (forwardCmdStep (addPendingPayment st hash amount)
      (newInitPacket nextNode hash amount)).2.2.1 = none) :
    (sendHTLC false st nextNode hash amount none).2.2 =
      (0, some .serviceShutdown) ∧
    (sendHTLC false st nextNode hash amount none).1 =
      addPendingPayment st hash amount ∧
    findPayment (sendHTLC false st nextNode hash amount none).1 amount hash =
      some (PendingPayment.mk hash amount) := by
  have hfind := findPayment_addPendingPayment st hash amount hWF
  have hstate : (sendHTLC false st nextNode hash amount none).1 =
      addPendingPayment st hash amount := by
    simp only [sendHTLC, if_neg (by simp : ¬ false = true), hok]
    exact forwardCmdStep_init_state _ _ _ _ _ hfind
  refine ⟨?_, hstate, ?_⟩
  · simp [sendHTLC, hok]
  · rw [hstate]
    exact hfind

/-- Claim C10 witness: a concrete in-flight send interrupted by
shutdown keeps its record. -/
theorem shutdown_leaves_pending_record_witness :
    (sendHTLC false
      { links := [(2, { chanID := 2, peer := 20, bandwidth := 100, startOk := true })],
        linksIndex := [(20, [{ chanID := 2, peer := 20, bandwidth := 100, startOk := true }])],
        circuits := [], pendingPayments := [] }
      20 3 30 none).2.2 = (0, some .serviceShutdown) ∧
    (sendHTLC false
      { links := [(2, { chanID := 2, peer := 20, bandwidth := 100, startOk := true })],
        linksIndex := [(20, [{ chanID := 2, peer := 20, bandwidth := 100, startOk := true }])],
        circuits := [], pendingPayments := [] }
      20 3 30 none).1 =
      addPendingPayment
        { links := [(2, { chanID := 2, peer := 20, bandwidth := 100, startOk := true })],
          linksIndex := [(20, [{ chanID := 2, peer := 20, bandwidth := 100, startOk := true }])],
          circuits := [], pendingPayments := [] } 3 30 ∧
    findPayment (sendHTLC false
      { links := [(2, { chanID := 2, peer := 20, bandwidth := 100, startOk := true })],
        linksIndex := [(20, [{ chanID := 2, peer := 20, bandwidth := 100, startOk := true }])],
        circuits := [], pendingPayments := [] }
      20 3 30 none).1 30 3 = some (PendingPayment.mk 3 30) :=
  shutdown_leaves_pending_record
    { links := [(2, { chanID := 2, peer := 20, bandwidth := 100, startOk := true })],
      linksIndex := [(20, [{ chanID := 2, peer := 20, bandwidth := 100, startOk := true }])],
      circuits := [], pendingPayments := [] }
    20 3 30 (by constructor <;> simp [keysOf]) (by decide)

/-- Claim C9: adding a link whose channel id is already registered
overwrites the `links` entry, but the peer index gains an extra entry
while the old link's entry remains — both links end up indexed for one
channel id. -/
theorem addLink_duplicate_chanid (st : SwitchState)
    (oldLink newLink : ChannelLink) (cid : Nat) (bucket : List ChannelLink)
    (hstart : newLink.startOk = true)
    (hc : newLink.chanID = cid)
    (hold : alookup st.links cid = some oldLink)
    (hpeer : newLink.peer = oldLink.peer)
    (hbucket : alookup st.linksIndex oldLink.peer = some bucket)
    (hmem : oldLink ∈ bucket) :
    (addLink st newLink).2.2 = none ∧
    getLink (addLink st newLink).1 cid = some newLink ∧
    alookup (addLink st newLink).1.linksIndex oldLink.peer =
      some (bucket ++ [newLink]) ∧
    oldLink ∈ bucket ++ [newLink] ∧ newLink ∈ bucket ++ [newLink] := by
  subst hc
  refine ⟨?_, ?_, ?_, ?_, ?_⟩
  · simp [addLink, hstart]
  · simp [addLink, hstart, getLink, alookup_ainsert_self]
  · simp [addLink, hstart, hpeer, hbucket, alookup_ainsert_self]
  · exact List.mem_append_left _ hmem
  · exact List.mem_append_right _ (List.mem_singleton.2 rfl)

/-- Claim C9 witness: re-adding channel id 1 for the same peer. -/
theorem addLink_duplicate_chanid_witness :
    (addLink
      { links := [(1, { chanID := 1, peer := 10, bandwidth := 100, startOk := true })],
        linksIndex := [(10, [{ chanID := 1, peer := 10, bandwidth := 100, startOk := true }])],
        circuits := [], pendingPayments := [] }
      { chanID := 1, peer := 10, bandwidth := 50, startOk := true }).2.2 = none ∧
    getLink (addLink
      { links := [(1, { chanID := 1, peer := 10, bandwidth := 100, startOk := true })],
        linksIndex := [(10, [{ chanID := 1, peer := 10, bandwidth := 100, startOk := true }])],
        circuits := [], pendingPayments := [] }
      { chanID := 1, peer := 10, bandwidth := 50, startOk := true }).1 1 =
      some { chanID := 1, peer := 10, bandwidth := 50, startOk := true } ∧
    alookup (addLink
      { links := [(1, { chanID := 1, peer := 10, bandwidth := 100, startOk := true })],
        linksIndex := [(10, [{ chanID := 1, peer := 10, bandwidth := 100, startOk := true }])],
        circuits := [], pendingPayments := [] }
      { chanID := 1, peer := 10, bandwidth := 50, startOk := true }).1.linksIndex 10 =
      some [{ chanID := 1, peer := 10, bandwidth := 100, startOk := true },
            { chanID := 1, peer := 10, bandwidth := 50, startOk := true }] ∧
    ({ chanID := 1, peer := 10, bandwidth := 100, startOk := true } : ChannelLink) ∈
      [{ chanID := 1, peer := 10, bandwidth := 100, startOk := true },
       ({ chanID := 1, peer := 10, bandwidth := 50, startOk := true } : ChannelLink)] ∧
    ({ chanID := 1, peer := 10, bandwidth := 50, startOk := true } : ChannelLink) ∈
      [{ chanID := 1, peer := 10, bandwidth := 100, startOk := true },
       ({ chanID := 1, peer := 10, bandwidth := 50, startOk := true } : ChannelLink)] :=
  addLink_duplicate_chanid
    { links := [(1, { chanID := 1, peer := 10, bandwidth := 100, startOk := true })],
      linksIndex := [(10, [{ chanID := 1, peer := 10, bandwidth := 100, startOk := true }])],
      circuits := [], pendingPayments := [] }
    { chanID := 1, peer := 10, bandwidth := 100, startOk := true }
    { chanID := 1, peer := 10, bandwidth := 50, startOk := true }
    1 [{ chanID := 1, peer := 10, bandwidth := 100, startOk := true }]
    (by decide) (by decide) (by decide) (by decide) (by decide) (by decide)

theorem removePendingPayment_circuits (st : SwitchState) (amount : Int)
    (hash : Nat) : (removePendingPayment st amount hash).1.circuits = st.circuits := by
  cases hlk : alookup st.pendingPayments hash with
  | none => simp [removePendingPayment, hlk]
  | some ps =>
    cases hsw : swapRemoveFirst (fun p => p.amount = amount) ps with
    | none => simp [removePendingPayment, hlk, hsw]
    | some rem =>
      by_cases hemp : rem = [] <;> simp [removePendingPayment, hlk, hsw, hemp]

theorem handleLocalDispatch_circuits (st : SwitchState)
    (payment : PendingPayment) (pkt : HtlcPacket) :
    (handleLocalDispatch st payment pkt).1.circuits = st.circuits := by
  cases hm : pkt.htlc with
  | add h amt =>
    cases hd : getLinksByDest st pkt.dest with
    | none => simp [handleLocalDispatch, hm, hd]
    | some links =>
      cases hpick : pickDestination links amt with
      | none => simp [handleLocalDispatch, hm, hd, hpick]
      | some destination => simp [handleLocalDispatch, hm, hd, hpick]
  | settle pre => simp [handleLocalDispatch, hm, removePendingPayment_circuits]
  | fail id reason => simp [handleLocalDispatch, hm, removePendingPayment_circuits]
  | other => simp [handleLocalDispatch, hm]

theorem circuitAdd_eq_some {cs cs2 : List PaymentCircuit} {c : PaymentCircuit}
    (h : circuitAdd cs c = some cs2) :
    cs2 = cs ++ [c] ∧ ∀ x ∈ cs, ¬ x.payHash = c.payHash := by
  unfold circuitAdd at h
  by_cases hany : cs.any (fun x => x.payHash = c.payHash) = true
  · rw [if_pos hany] at h
    exact absurd h (by simp)
  · rw [if_neg hany] at h
    refine ⟨(Option.some_inj.1 h).symm, ?_⟩
    intro x hx hp
    exact hany (List.any_eq_true.2 ⟨x, hx, by simp [hp]⟩)

theorem circuitAdd_eq_none_of_dup {cs : List PaymentCircuit}
    {c : PaymentCircuit}
    (h : cs.any (fun x => x.payHash = c.payHash) = true) :
    circuitAdd cs c = none := by
  unfold circuitAdd
  rw [if_pos h]

/-- Claim C1: circuit lifecycle.  (1) A successfully forwarded Add
creates exactly one circuit (source channel id, destination channel id,
payment hash) for a hash that had none; (2) local dispatch never
touches the circuit map; (3) a duplicate insert is rejected with an
error and no state change; (4) the circuit survives every forward step
other than a forwarded Settle or Fail for its hash; (5) processing that
Settle or Fail leaves no circuit for the hash; (6) at most one circuit
per hash is preserved by every forward step. -/
theorem circuit_lifecycle :
    (∀ (st : SwitchState) (pkt : HtlcPacket) (h : Nat) (amt : Int),
      pkt.htlc = .add h amt →
      (handlePacketForward st pkt).2.2 = none →
      ∃ source destination,
        getLinkSrc st pkt.src = some source ∧
        (∃ links, getLinksByDest st pkt.dest = some links ∧
          pickDestination links amt = some destination) ∧
        (handlePacketForward st pkt).1.circuits =
          st.circuits ++
            [{ src := source.chanID, dest := destination.chanID, payHash := h }] ∧
        st.circuits.countP (fun c => c.payHash = h) = 0 ∧
        (handlePacketForward st pkt).1.circuits.countP
          (fun c => c.payHash = h) = 1) ∧
    (∀ (st : SwitchState) (payment : PendingPayment) (pkt : HtlcPacket),
      (handleLocalDispatch st payment pkt).1.circuits = st.circuits) ∧
    (∀ (st : SwitchState) (pkt : HtlcPacket) (h : Nat) (amt : Int),
      pkt.htlc = .add h amt → hasCircuit st h = true →
      ¬ (handlePacketForward st pkt).2.2 = none ∧
      (handlePacketForward st pkt).1.circuits = st.circuits) ∧
    (∀ (st : SwitchState) (pkt : HtlcPacket) (h : Nat),
      hasCircuit st h = true →
      ¬ (isSettleOrFail pkt.htlc = true ∧ pkt.payHash = h) →
      hasCircuit (forwardCmdStep st pkt).1 h = true) ∧
    (∀ (st : SwitchState) (pkt : HtlcPacket),
      isSettleOrFail pkt.htlc = true →
      hasCircuit st pkt.payHash = true →
      hasCircuit (handlePacketForward st pkt).1 pkt.payHash = false) ∧
    (∀ (st : SwitchState) (pkt : HtlcPacket),
      (∀ h, st.circuits.countP (fun c => c.payHash = h) ≤ 1) →
      ∀ h, (forwardCmdStep st pkt).1.circuits.countP
        (fun c => c.payHash = h) ≤ 1) := by
  have hforward_circuits :
      ∀ (st : SwitchState) (pkt : HtlcPacket),
        (handlePacketForward st pkt).1.circuits = st.circuits ∨
        (∃ c, circuitAdd st.circuits c =
            some (handlePacketForward st pkt).1.circuits) ∨
        (isSettleOrFail pkt.htlc = true ∧
          (handlePacketForward st pkt).1.circuits =
            st.circuits.filter (fun x => ¬ x.payHash = pkt.payHash)) := by
    intro st pkt
    cases hm : pkt.htlc with
    | add h amt =>
      cases hsrc : getLinkSrc st pkt.src with
      | none => exact Or.inl (by simp [handlePacketForward, hm, hsrc])
      | some source =>
        cases hd : getLinksByDest st pkt.dest with
        | none => exact Or.inl (by simp [handlePacketForward, hm, hsrc, hd])
        | some links =>
          cases hpick : pickDestination links amt with
          | none => exact Or.inl (by simp [handlePacketForward, hm, hsrc, hd, hpick])
          | some destination =>
            cases hca : circuitAdd st.circuits
                { src := source.chanID, dest := destination.chanID,
                  payHash := h } with
            | none =>
              exact Or.inl (by simp [handlePacketForward, hm, hsrc, hd, hpick, hca])
            | some cs2 =>
              refine Or.inr (Or.inl
                ⟨{ src := source.chanID, dest := destination.chanID,
                   payHash := h }, ?_⟩)
              have hcir : (handlePacketForward st pkt).1.circuits = cs2 := by
                simp [handlePacketForward, hm, hsrc, hd, hpick, hca]
              rw [hcir]
              exact hca
    | settle pre =>
      cases hrem : circuitRemove st.circuits pkt.payHash with
      | none => exact Or.inl (by simp [handlePacketForward, hm, hrem])
      | some pr =>
        have hfilter : pr.2 = st.circuits.filter
            (fun x => ¬ x.payHash = pkt.payHash) := by
          unfold circuitRemove at hrem
          cases hf : st.circuits.find? (fun x => x.payHash = pkt.payHash) with
          | none => rw [hf] at hrem; exact absurd hrem (by simp)
          | some c =>
            rw [hf] at hrem
            cases pr
            simp only [Option.some_inj, Prod.mk.injEq] at hrem
            exact hrem.2.symm
        refine Or.inr (Or.inr ⟨by simp [hm, isSettleOrFail], ?_⟩)
        cases hsrc : getLink st pr.1.src with
        | none =>
          rw [← hfilter]
          obtain ⟨c1, rest⟩ := pr
          simp [handlePacketForward, hm, hrem, hsrc]
        | some source =>
          rw [← hfilter]
          obtain ⟨c1, rest⟩ := pr
          simp [handlePacketForward, hm, hrem, hsrc]
    | fail id reason =>
      cases hrem : circuitRemove st.circuits pkt.payHash with
      | none => exact Or.inl (by simp [handlePacketForward, hm, hrem])
      | some pr =>
        have hfilter : pr.2 = st.circuits.filter
            (fun x => ¬ x.payHash = pkt.payHash) := by
          unfold circuitRemove at hrem
          cases hf : st.circuits.find? (fun x => x.payHash = pkt.payHash) with
          | none => rw [hf] at hrem; exact absurd hrem (by simp)
          | some c =>
            rw [hf] at hrem
            cases pr
            simp only [Option.some_inj, Prod.mk.injEq] at hrem
            exact hrem.2.symm
        refine Or.inr (Or.inr ⟨by simp [hm, isSettleOrFail], ?_⟩)
        cases hsrc : getLink st pr.1.src with
        | none =>
          rw [← hfilter]
          obtain ⟨c1, rest⟩ := pr
          simp [handlePacketForward, hm, hrem, hsrc]
        | some source =>
          rw [← hfilter]
          obtain ⟨c1, rest⟩ := pr
          simp [handlePacketForward, hm, hrem, hsrc]
    | other => exact Or.inl (by simp [handlePacketForward, hm])
  refine ⟨?_, handleLocalDispatch_circuits, ?_, ?_, ?_, ?_⟩
  · intro st pkt h amt hm hok
    cases hsrc : getLinkSrc st pkt.src with
    | none => simp [handlePacketForward, hm, hsrc] at hok
    | some source =>
      cases hd : getLinksByDest st pkt.dest with
      | none => simp [handlePacketForward, hm, hsrc, hd] at hok
      | some links =>
        cases hpick : pickDestination links amt with
        | none => simp [handlePacketForward, hm, hsrc, hd, hpick] at hok
        | some destination =>
          cases hca : circuitAdd st.circuits
              { src := source.chanID, dest := destination.chanID,
                payHash := h } with
          | none => simp [handlePacketForward, hm, hsrc, hd, hpick, hca] at hok
          | some cs2 =>
            obtain ⟨hcs2, hnone⟩ := circuitAdd_eq_some hca
            have hcir : (handlePacketForward st pkt).1.circuits = cs2 := by
              simp [handlePacketForward, hm, hsrc, hd, hpick, hca]
            have hzero : st.circuits.countP (fun c => c.payHash = h) = 0 := by
              rw [List.countP_eq_zero]
              intro a ha
              simpa using hnone a ha
            refine ⟨source, destination, rfl, ⟨links, rfl, hpick⟩, ?_, hzero, ?_⟩
            · rw [hcir, hcs2]
            · rw [hcir, hcs2, List.countP_append, hzero]
              simp
  · intro st pkt h amt hm hdup
    have hany : st.circuits.any
        (fun x => x.payHash = h) = true := hdup
    cases hsrc : getLinkSrc st pkt.src with
    | none => constructor <;> simp [handlePacketForward, hm, hsrc]
    | some source =>
      cases hd : getLinksByDest st pkt.dest with
      | none => constructor <;> simp [handlePacketForward, hm, hsrc, hd]
      | some links =>
        cases hpick : pickDestination links amt with
        | none => constructor <;> simp [handlePacketForward, hm, hsrc, hd, hpick]
        | some destination =>
          have hca : circuitAdd st.circuits
              { src := source.chanID, dest := destination.chanID,
                payHash := h } = none :=
            circuitAdd_eq_none_of_dup (by simpa using hany)
          constructor <;> simp [handlePacketForward, hm, hsrc, hd, hpick, hca]
  · intro st pkt h hhas hns
    cases hcl : classifyPacket pkt with
    | none => simpa [forwardCmdStep, hcl] using hhas
    | some pa =>
      cases hfp : findPayment st pa.2 pa.1 with
      | some payment =>
        have : (forwardCmdStep st pkt).1 =
            (handleLocalDispatch st payment pkt).1 := by
          obtain ⟨p1, p2⟩ := pa
          simp [forwardCmdStep, hcl, hfp]
        rw [this]
        unfold hasCircuit
        rw [handleLocalDispatch_circuits]
        exact hhas
      | none =>
        have hfw : (forwardCmdStep st pkt).1 =
            (handlePacketForward st pkt).1 := by
          obtain ⟨p1, p2⟩ := pa
          simp [forwardCmdStep, hcl, hfp]
        rw [hfw]
        rcases hforward_circuits st pkt with hsame | ⟨c, hadd⟩ | ⟨hsf, hfil⟩
        · unfold hasCircuit
          rw [hsame]
          exact hhas
        · obtain ⟨hcs2, _⟩ := circuitAdd_eq_some hadd
          unfold hasCircuit
          rw [hcs2, List.any_append]
          rw [hasCircuit] at hhas
          rw [hhas]
          rfl
        · have hne : ¬ pkt.payHash = h := fun hq => hns ⟨hsf, hq⟩
          unfold hasCircuit at hhas ⊢
          rw [hfil]
          obtain ⟨c, hc, hch⟩ := List.any_eq_true.1 hhas
          refine List.any_eq_true.2 ⟨c, ?_, hch⟩
          rw [List.mem_filter]
          refine ⟨hc, ?_⟩
          have hcph : c.payHash = h := by simpa using hch
          have hcne : ¬ c.payHash = pkt.payHash := by
            rw [hcph]
            exact fun hq => hne hq.symm
          simpa using hcne
  · intro st pkt hsf hhas
    have hfind : (st.circuits.find?
        (fun x => x.payHash = pkt.payHash)).isSome := by
      cases hf : st.circuits.find? (fun x => x.payHash = pkt.payHash) with
      | none =>
        obtain ⟨c, hc, hch⟩ := List.any_eq_true.1 hhas
        exact absurd hch (by simpa using List.find?_eq_none.1 hf c hc)
      | some c => rfl
    obtain ⟨c, hf⟩ := Option.isSome_iff_exists.1 hfind
    have hrem : circuitRemove st.circuits pkt.payHash =
        some (c, st.circuits.filter (fun x => ¬ x.payHash = pkt.payHash)) := by
      unfold circuitRemove
      rw [hf]
    have hfil : (handlePacketForward st pkt).1.circuits =
        st.circuits.filter (fun x => ¬ x.payHash = pkt.payHash) := by
      cases hm : pkt.htlc <;> rw [hm] at hsf <;>
        simp [isSettleOrFail] at hsf <;>
        cases hsrc : getLink st c.src <;>
        simp [handlePacketForward, hm, hrem, hsrc]
    unfold hasCircuit
    rw [hfil]
    rw [List.any_eq_false]
    intro x hx
    rw [List.mem_filter] at hx
    simpa using hx.2
  · intro st pkt hinv h
    cases hcl : classifyPacket pkt with
    | none => simpa [forwardCmdStep, hcl] using hinv h
    | some pa =>
      cases hfp : findPayment st pa.2 pa.1 with
      | some payment =>
        have hst : (forwardCmdStep st pkt).1 =
            (handleLocalDispatch st payment pkt).1 := by
          obtain ⟨p1, p2⟩ := pa
          simp [forwardCmdStep, hcl, hfp]
        rw [hst, handleLocalDispatch_circuits]
        exact hinv h
      | none =>
        have hfw : (forwardCmdStep st pkt).1 =
            (handlePacketForward st pkt).1 := by
          obtain ⟨p1, p2⟩ := pa
          simp [forwardCmdStep, hcl, hfp]
        rw [hfw]
        rcases hforward_circuits st pkt with hsame | ⟨c, hadd⟩ | ⟨_, hfil⟩
        · rw [hsame]
          exact hinv h
        · obtain ⟨hcs2, hnone⟩ := circuitAdd_eq_some hadd
          rw [hcs2, List.countP_append]
          by_cases hch : c.payHash = h
          · have hzero : st.circuits.countP (fun x => x.payHash = h) = 0 := by
              rw [List.countP_eq_zero]
              intro a ha hpa
              exact hnone a ha (by rw [of_decide_eq_true hpa, hch])
            rw [hzero]
            simp [hch]
          · have : ([c].countP fun x => x.payHash = h) = 0 := by
              simp [hch]
            rw [this, Nat.add_zero]
            exact hinv h
        · rw [hfil]
          exact Nat.le_trans
            (List.Sublist.countP_le _ (List.filter_sublist _)) (hinv h)

/-- Claim C1 witness: a duplicate insert for hash 7 is rejected and the
circuit map is unchanged. -/
theorem circuit_lifecycle_witness :
    ¬ (handlePacketForward
      { links := [(1, { chanID := 1, peer := 10, bandwidth := 100, startOk := true }),
                  (2, { chanID := 2, peer := 20, bandwidth := 100, startOk := true })],
        linksIndex := [(10, [{ chanID := 1, peer := 10, bandwidth := 100, startOk := true }]),
                       (20, [{ chanID := 2, peer := 20, bandwidth := 100, startOk := true }])],
        circuits := [{ src := 1, dest := 2, payHash := 7 }],
        pendingPayments := [] }
      { src := some 1, dest := 20, payHash := 7, amount := 5,
        htlc := .add 7 5 }).2.2 = none ∧
    (handlePacketForward
      { links := [(1, { chanID := 1, peer := 10, bandwidth := 100, startOk := true }),
                  (2, { chanID := 2, peer := 20, bandwidth := 100, startOk := true })],
        linksIndex := [(10, [{ chanID := 1, peer := 10, bandwidth := 100, startOk := true }]),
                       (20, [{ chanID := 2, peer := 20, bandwidth := 100, startOk := true }])],
        circuits := [{ src := 1, dest := 2, payHash := 7 }],
        pendingPayments := [] }
      { src := some 1, dest := 20, payHash := 7, amount := 5,
        htlc := .add 7 5 }).1.circuits = [{ src := 1, dest := 2, payHash := 7 }] :=
  circuit_lifecycle.2.2.1
    { links := [(1, { chanID := 1, peer := 10, bandwidth := 100, startOk := true }),
                (2, { chanID := 2, peer := 20, bandwidth := 100, startOk := true })],
      linksIndex := [(10, [{ chanID := 1, peer := 10, bandwidth := 100, startOk := true }]),
                     (20, [{ chanID := 2, peer := 20, bandwidth := 100, startOk := true }])],
      circuits := [{ src := 1, dest := 2, payHash := 7 }],
      pendingPayments := [] }
    { src := some 1, dest := 20, payHash := 7, amount := 5, htlc := .add 7 5 }
    7 5 (by decide) (by decide)

theorem removeLink_first_entry (st : SwitchState) (e : Nat × ChannelLink)
    (rest : List (Nat × ChannelLink)) (hst : st.links = e :: rest)
    (hI1 : ∀ x ∈ e :: rest, x.2.chanID = x.1)
    (hnd : (keysOf (e :: rest)).Nodup) :
    (removeLink st e.1).1.links = rest ∧
    (removeLink st e.1).2.1 = [Event.linkStop e.1] := by
  have hlk : alookup st.links e.1 = some e.2 := by
    rw [hst, alookup_cons, if_pos rfl]
  have hchan : e.2.chanID = e.1 := hI1 e (List.mem_cons_self e rest)
  have hnotmem : e.1 ∉ keysOf rest := by
    rw [keysOf_cons, List.nodup_cons] at hnd
    exact hnd.1
  have hrest : aerase st.links e.2.chanID = rest := by
    rw [hchan, hst, aerase_cons_eq rfl, aerase_eq_self rest e.1 hnotmem]
  constructor
  · simp [removeLink, hlk, hrest]
  · simp [removeLink, hlk, hchan]

theorem removeAllLinks_spec (ls : List (Nat × ChannelLink)) :
    ∀ st : SwitchState, st.links = ls →
    (∀ x ∈ ls, x.2.chanID = x.1) → (keysOf ls).Nodup →
    (removeAllLinks st (keysOf ls)).1.links = [] ∧
    (removeAllLinks st (keysOf ls)).2 = (keysOf ls).map Event.linkStop := by
  induction ls with
  | nil =>
    intro st hst _ _
    constructor
    · show (removeAllLinks st []).1.links = []
      simpa [removeAllLinks] using hst
    · rfl
  | cons e rest ih =>
    intro st hst hI1 hnd
    have hstep := removeLink_first_entry st e rest hst hI1 hnd
    have hndr : (keysOf rest).Nodup := by
      rw [keysOf_cons, List.nodup_cons] at hnd
      exact hnd.2
    have hih := ih (removeLink st e.1).1 hstep.1
      (fun x hx => hI1 x (List.mem_cons_of_mem _ hx)) hndr
    rw [keysOf_cons]
    constructor
    · show (removeAllLinks (removeLink st e.1).1 (keysOf rest)).1.links = []
      exact hih.1
    · show (removeLink st e.1).2.1 ++
        (removeAllLinks (removeLink st e.1).1 (keysOf rest)).2 =
        Event.linkStop e.1 :: (keysOf rest).map Event.linkStop
      rw [hstep.2, hih.2]
      rfl

theorem teardown_spec (st : SwitchState)
    (hI1 : ∀ x ∈ st.links, x.2.chanID = x.1)
    (hnd : (keysOf st.links).Nodup) :
    (teardown st).1.links = [] ∧
    (teardown st).2 = (keysOf st.links).map Event.linkStop :=
  removeAllLinks_spec st.links st rfl hI1 hnd

theorem forwardCmdStep_cont (st : SwitchState) (pkt : HtlcPacket)
    (pa : Nat × Int) (hcl : classifyPacket pkt = some pa) :
    (forwardCmdStep st pkt).2.2.2 = true := by
  obtain ⟨p1, p2⟩ := pa
  cases hfp : findPayment st p2 p1 <;> simp [forwardCmdStep, hcl, hfp]

/-- Claim C7 counterexample: a forward command whose message is neither
Add, Settle, nor Fail makes the dispatch loop return (running its
teardown) without any shutdown signal, so the following add-link
command is never served — contradicting "the loop returns only upon the
shutdown signal ... and the loop continues to serve subsequent
commands". -/
theorem dispatch_loop_halts_on_unknown_update :
    runLoop newSwitch
      [.fwd { src := none, dest := 0, payHash := 0, amount := 0,
              htlc := .other },
       .addL { chanID := 1, peer := 2, bandwidth := 3, startOk := true }] =
      (newSwitch, [.reply (some .wrongTypeOfUpdate)], true) := by
  rfl

/-- Claim C7 (amended): the dispatch loop returns upon the shutdown
signal or upon a forward command carrying an unrecognized update type
(the reply channel still receives the outcome error first); in either
case the deferred teardown removes (and stops) each remaining link.
For every Add, Settle, or Fail forward command the reply receives the
outcome error (possibly nil) and the loop continues to serve the
remaining inputs. -/
theorem dispatch_loop_behavior :
    (∀ st : SwitchState, runLoop st [] = (st, [], false)) ∧
    (∀ (st : SwitchState) (pkt : HtlcPacket) (rest : List LoopInput)
        (pa : Nat × Int), classifyPacket pkt = some pa →
      runLoop st (.fwd pkt :: rest) =
        ((runLoop (forwardCmdStep st pkt).1 rest).1,
         (forwardCmdStep st pkt).2.1.map .ev ++
           [.reply (forwardCmdStep st pkt).2.2.1] ++
           (runLoop (forwardCmdStep st pkt).1 rest).2.1,
         (runLoop (forwardCmdStep st pkt).1 rest).2.2)) ∧
    (∀ (st : SwitchState) (pkt : HtlcPacket) (rest : List LoopInput),
      classifyPacket pkt = none →
      runLoop st (.fwd pkt :: rest) =
        ((teardown st).1,
         .reply (some .wrongTypeOfUpdate) :: (teardown st).2.map .ev,
         true)) ∧
    (∀ (st : SwitchState) (rest : List LoopInput),
      runLoop st (.quit :: rest) =
        ((teardown st).1, (teardown st).2.map .ev, true)) ∧
    (∀ st : SwitchState,
      (∀ x ∈ st.links, x.2.chanID = x.1) → (keysOf st.links).Nodup →
      (teardown st).1.links = [] ∧
      (teardown st).2 = (keysOf st.links).map Event.linkStop) := by
  refine ⟨fun st => rfl, ?_, ?_, fun st rest => rfl, teardown_spec⟩
  · intro st pkt rest pa hcl
    have hcont := forwardCmdStep_cont st pkt pa hcl
    simp [runLoop, hcont]
  · intro st pkt rest hcl
    have hstep : forwardCmdStep st pkt =
        (st, [], some .wrongTypeOfUpdate, false) := by
      simp [forwardCmdStep, hcl]
    simp [runLoop, hstep]

/-- Claim C7 witness: teardown of a concrete two-link registry stops
and removes both links. -/
theorem dispatch_loop_behavior_witness :
    (teardown
      { links := [(1, { chanID := 1, peer := 10, bandwidth := 100, startOk := true }),
                  (2, { chanID := 2, peer := 20, bandwidth := 100, startOk := true })],
        linksIndex := [(10, [{ chanID := 1, peer := 10, bandwidth := 100, startOk := true }]),
                       (20, [{ chanID := 2, peer := 20, bandwidth := 100, startOk := true }])],
        circuits := [], pendingPayments := [] }).1.links = [] ∧
    (teardown
      { links := [(1, { chanID := 1, peer := 10, bandwidth := 100, startOk := true }),
                  (2, { chanID := 2, peer := 20, bandwidth := 100, startOk := true })],
        linksIndex := [(10, [{ chanID := 1, peer := 10, bandwidth := 100, startOk := true }]),
                       (20, [{ chanID := 2, peer := 20, bandwidth := 100, startOk := true }])],
        circuits := [], pendingPayments := [] }).2 =
      (keysOf [(1, ({ chanID := 1, peer := 10, bandwidth := 100, startOk := true } : ChannelLink)),
               (2, { chanID := 2, peer := 20, bandwidth := 100, startOk := true })]).map
        Event.linkStop :=
  dispatch_loop_behavior.2.2.2.2
    { links := [(1, { chanID := 1, peer := 10, bandwidth := 100, startOk := true }),
                (2, { chanID := 2, peer := 20, bandwidth := 100, startOk := true })],
      linksIndex := [(10, [{ chanID := 1, peer := 10, bandwidth := 100, startOk := true }]),
                     (20, [{ chanID := 2, peer := 20, bandwidth := 100, startOk := true }])],
      circuits := [], pendingPayments := [] }
    (by decide) (by decide)

/-- Claim C8: `Start` and `Stop` are idempotent (the losing
compare-and-swap neither transitions state, spawns a loop, nor closes
the quit channel again), and with the quit channel closed every facade
operation fails fast with its stopped error and leaves the state
untouched. -/
theorem lifecycle_idempotence_and_fail_fast :
    (∀ lc : Lifecycle, lc.started = true → startSwitch lc = (lc, none)) ∧
    (∀ lc : Lifecycle, lc.started = false →
      (startSwitch lc).1.started = true ∧
      (startSwitch lc).1.loops = lc.loops + 1 ∧ (startSwitch lc).2 = none) ∧
    (∀ lc : Lifecycle, lc.stopped = true → stopSwitch lc = (lc, none)) ∧
    (∀ lc : Lifecycle, lc.stopped = false →
      (stopSwitch lc).1.stopped = true ∧
      (stopSwitch lc).1.quitClosed = true ∧
      (stopSwitch lc).1.quitCloses = lc.quitCloses + 1 ∧
      (stopSwitch lc).2 = none) ∧
    (∀ (st : SwitchState) (pkt : HtlcPacket),
      forwardFacade true st pkt = (st, [], some .switchStopped)) ∧
    (∀ (st : SwitchState) (link : ChannelLink),
      addLinkFacade true st link = (st, [], some .switchStopped)) ∧
    (∀ (st : SwitchState) (cid : Nat),
      removeLinkFacade true st cid = (st, [], some .switchStopped)) ∧
    (∀ (st : SwitchState) (cid : Nat),
      getLinkFacade true st cid = (none, some .switchStopped)) ∧
    (∀ (st : SwitchState) (hop : Nat),
      getLinksFacade true st hop = (none, some .switchStopped)) ∧
    (∀ (st : SwitchState) (cid : Nat),
      closeLinkFacade true st cid = ([], some .closeStopped)) ∧
    (∀ (st : SwitchState) (n hash : Nat) (amount : Int)
        (res : Option (List Event)), WFPending st →
      (sendHTLC true st n hash amount res).2.2 =
        (0, some .switchStopped) ∧
      (sendHTLC true st n hash amount res).1 = st) := by
  refine ⟨?_, ?_, ?_, ?_, fun st pkt => rfl, fun st link => rfl,
    fun st cid => rfl, fun st cid => rfl, fun st hop => rfl,
    fun st cid => rfl, ?_⟩
  · intro lc h
    simp [startSwitch, h]
  · intro lc h
    simp [startSwitch, h]
  · intro lc h
    simp [stopSwitch, h]
  · intro lc h
    simp [stopSwitch, h]
  · intro st n hash amount res hWF
    exact ⟨rfl, removePendingPayment_addPendingPayment st hash amount hWF⟩

/-- Claim C8 witness: a second `Start` and `Stop` are no-ops and a
stopped switch rejects a forward. -/
theorem lifecycle_idempotence_and_fail_fast_witness :
    startSwitch
      { started := true, stopped := false, quitClosed := false, loops := 1, quitCloses := 0 } =
      ({ started := true, stopped := false, quitClosed := false, loops := 1, quitCloses := 0 },
       none) ∧
    stopSwitch
      { started := true, stopped := true, quitClosed := true, loops := 1, quitCloses := 1 } =
      ({ started := true, stopped := true, quitClosed := true, loops := 1, quitCloses := 1 },
       none) :=
  ⟨lifecycle_idempotence_and_fail_fast.1
    { started := true, stopped := false, quitClosed := false, loops := 1, quitCloses := 0 }
    (by decide),
   lifecycle_idempotence_and_fail_fast.2.2.1
    { started := true, stopped := true, quitClosed := true, loops := 1, quitCloses := 1 }
    (by decide)⟩

/-! ### Lemmas for the swap-remove reindexing -/

theorem firstMatchIdx_eq_none {α : Type} {p : α → Bool} {xs : List α}
    (h : firstMatchIdx p xs = none) : ∀ x ∈ xs, ¬ p x = true := by
  induction xs with
  | nil => intro x hx; exact absurd hx (List.not_mem_nil x)
  | cons a t ih =>
    rw [firstMatchIdx] at h
    by_cases ha : p a = true
    · rw [if_pos ha] at h
      exact absurd h (by simp)
    · rw [if_neg ha] at h
      intro x hx
      rcases List.mem_cons.1 hx with hq | hq
      · exact hq ▸ ha
      · cases hrec : firstMatchIdx p t with
        | none => exact ih hrec x hq
        | some j => rw [hrec] at h; exact absurd h (by simp)

theorem firstMatchIdx_some {α : Type} {p : α → Bool} :
    ∀ {xs : List α} {i : Nat}, firstMatchIdx p xs = some i →
    ∃ hi : i < xs.length, p (xs.get ⟨i, hi⟩) = true := by
  intro xs
  induction xs with
  | nil => intro i h; exact absurd h (by simp [firstMatchIdx])
  | cons a t ih =>
    intro i h
    rw [firstMatchIdx] at h
    by_cases ha : p a = true
    · rw [if_pos ha] at h
      have : i = 0 := (Option.some_inj.1 h).symm
      subst this
      exact ⟨by simp, ha⟩
    · rw [if_neg ha] at h
      cases hrec : firstMatchIdx p t with
      | none => rw [hrec] at h; exact absurd h (by simp)
      | some j =>
        rw [hrec] at h
        have hij : i = j + 1 := by
          have : some (j + 1) = some i := h
          exact (Option.some_inj.1 this).symm
        subst hij
        obtain ⟨hj, hpj⟩ := ih hrec
        exact ⟨Nat.succ_lt_succ hj, hpj⟩

theorem eraseIdx_subset_self {α : Type} :
    ∀ {l : List α} {i : Nat} {x : α}, x ∈ l.eraseIdx i → x ∈ l := by
  intro l
  induction l with
  | nil => intro i x h; simp [List.eraseIdx] at h
  | cons a t ih =>
    intro i x h
    cases i with
    | zero => exact List.mem_cons_of_mem a h
    | succ j =>
      rcases List.mem_cons.1 h with hq | hq
      · exact hq ▸ List.mem_cons_self a t
      · exact List.mem_cons_of_mem a (ih hq)

theorem mem_eraseIdx_of_ne {α : Type} :
    ∀ {l : List α} {i : Nat} (hi : i < l.length) {x : α},
      x ∈ l → x ≠ l.get ⟨i, hi⟩ → x ∈ l.eraseIdx i := by
  intro l
  induction l with
  | nil => intro i hi; simp at hi
  | cons a t ih =>
    intro i hi x hx hne
    cases i with
    | zero =>
      rcases List.mem_cons.1 hx with hq | hq
      · exact absurd hq hne
      · exact hq
    | succ j =>
      rcases List.mem_cons.1 hx with hq | hq
      · exact hq ▸ List.mem_cons_self a _
      · exact List.mem_cons_of_mem a
          (ih (Nat.succ_lt_succ_iff.1 hi) hq hne)

theorem not_mem_eraseIdx_of_nodup {α : Type} :
    ∀ {l : List α} {i : Nat} (hi : i < l.length), l.Nodup →
      l.get ⟨i, hi⟩ ∉ l.eraseIdx i := by
  intro l
  induction l with
  | nil => intro i hi; simp at hi
  | cons a t ih =>
    intro i hi hnd
    rw [List.nodup_cons] at hnd
    cases i with
    | zero => exact hnd.1
    | succ j =>
      intro hmem
      rcases List.mem_cons.1 hmem with hq | hq
      · exact hnd.1 (hq ▸ List.get_mem t j (Nat.succ_lt_succ_iff.1 hi))
      · exact ih (Nat.succ_lt_succ_iff.1 hi) hnd.2 hq

theorem eraseIdx_sublist_self {α : Type} :
    ∀ (l : List α) (i : Nat), (l.eraseIdx i).Sublist l := by
  intro l
  induction l with
  | nil => intro i; simp [List.eraseIdx]
  | cons a t ih =>
    intro i
    cases i with
    | zero => exact List.sublist_cons_self a t
    | succ j => exact (ih j).cons₂ a

theorem inj_of_map_nodup {α β : Type} {f : α → β} :
    ∀ {l : List α}, (l.map f).Nodup →
      ∀ {x y : α}, x ∈ l → y ∈ l → f x = f y → x = y := by
  intro l
  induction l with
  | nil => intro _ x y hx; exact absurd hx (List.not_mem_nil x)
  | cons a t ih =>
    intro hnd x y hx hy hf
    rw [List.map_cons, List.nodup_cons] at hnd
    rcases List.mem_cons.1 hx with hxa | hxt <;>
      rcases List.mem_cons.1 hy with hya | hyt
    · rw [hxa, hya]
    · refine absurd ?_ hnd.1
      have : f y ∈ t.map f := List.mem_map_of_mem f hyt
      rw [← hf, hxa] at this
      exact this
    · refine absurd ?_ hnd.1
      have : f x ∈ t.map f := List.mem_map_of_mem f hxt
      rw [hf, hya] at this
      exact this
    · exact ih hnd.2 hxt hyt hf

theorem swapRemove_perm {α : Type} (xs : List α) :
    ∀ i, i < xs.length → (swapRemove xs i).Perm (xs.eraseIdx i) := by
  induction xs with
  | nil => intro i hi; simp at hi
  | cons x t ih =>
    intro i hi
    cases t with
    | nil =>
      have hz : i = 0 := Nat.lt_one_iff.1 (by simpa using hi)
      subst hz
      rw [swapRemove_singleton]
      exact List.Perm.nil
    | cons y s =>
      cases i with
      | zero =>
        have hne : (y :: s : List α) ≠ [] := List.cons_ne_nil y s
        have hlast : (x :: y :: s).getLast? = some ((y :: s).getLast hne) := by
          rw [List.getLast?_cons_cons, List.getLast?_eq_getLast _ hne]
        show (swapRemove (x :: y :: s) 0).Perm ((x :: y :: s).eraseIdx 0)
        unfold swapRemove
        rw [hlast]
        show (((y :: s).getLast hne :: (y :: s).dropLast)).Perm (y :: s)
        have hperm := List.perm_append_singleton ((y :: s).getLast hne)
          ((y :: s).dropLast)
        rw [List.dropLast_append_getLast hne] at hperm
        exact hperm.symm
      | succ j =>
        rw [swapRemove_cons x (List.cons_ne_nil y s) j]
        have hj : j < (y :: s).length := Nat.succ_lt_succ_iff.1 (by simpa using hi)
        exact (ih j hj).cons x

/-! ### Link-registry invariant -/

/-- The coordinated-maps invariant of the link registry: correct keys,
no duplicate keys, no empty peer buckets, bucket members indexed under
their own peer and registered in `links`, and every registered link
present in its peer's bucket. -/
def RegInv (st : SwitchState) : Prop :=
  (∀ e ∈ st.links, e.2.chanID = e.1) ∧
  (keysOf st.links).Nodup ∧
  (keysOf st.linksIndex).Nodup ∧
  (∀ q ∈ st.linksIndex, q.2 ≠ [] ∧
    (q.2.map (fun l => l.chanID)).Nodup ∧
    ∀ l ∈ q.2, l.peer = q.1 ∧ alookup st.links l.chanID = some l) ∧
  (∀ e ∈ st.links, ∃ bucket,
    alookup st.linksIndex e.2.peer = some bucket ∧ e.2 ∈ bucket)

theorem RegInv_newSwitch : RegInv newSwitch := by
  refine ⟨?_, ?_, ?_, ?_, ?_⟩ <;> simp [newSwitch, keysOf]

theorem addLink_preserves_RegInv (st : SwitchState) (link : ChannelLink)
    (hinv : RegInv st) (hok : link.startOk = true)
    (hfresh : alookup st.links link.chanID = none) :
    RegInv (addLink st link).1 := by
  obtain ⟨hI1, hI2, hI3, hI4, hI5⟩ := hinv
  have hfreshk : link.chanID ∉ keysOf st.links :=
    (alookup_eq_none_iff _ _).1 hfresh
  have hlinksA : (addLink st link).1.links =
      ainsert st.links link.chanID link := by
    simp [addLink, hok]
  have hlinks : (addLink st link).1.links =
      st.links ++ [(link.chanID, link)] := by
    rw [hlinksA, ainsert_eq, if_neg hfreshk]
  have hidx : (addLink st link).1.linksIndex =
      ainsert st.linksIndex link.peer
        ((alookup st.linksIndex link.peer).getD [] ++ [link]) := by
    simp [addLink, hok]
  set bucket0 := (alookup st.linksIndex link.peer).getD [] with hb0
  have hb0all : ∀ l ∈ bucket0,
      l.peer = link.peer ∧ alookup st.links l.chanID = some l := by
    intro l hl
    cases hlkp : alookup st.linksIndex link.peer with
    | none =>
      rw [hb0, hlkp] at hl
      exact absurd hl (List.not_mem_nil l)
    | some bucket =>
      have hbeq : bucket0 = bucket := by rw [hb0, hlkp]; rfl
      rw [hbeq] at hl
      exact (hI4 (link.peer, bucket) (mem_of_alookup_eq_some hlkp)).2.2 l hl
  have hb0nd : (bucket0.map (fun l => l.chanID)).Nodup := by
    cases hlkp : alookup st.linksIndex link.peer with
    | none => rw [hb0, hlkp]; simp
    | some bucket =>
      have hbeq : bucket0 = bucket := by rw [hb0, hlkp]; rfl
      rw [hbeq]
      exact (hI4 (link.peer, bucket) (mem_of_alookup_eq_some hlkp)).2.1
  have hb0ne : ∀ l ∈ bucket0, ¬ l.chanID = link.chanID := by
    intro l hl hq
    exact hfreshk (hq ▸ mem_keys_of_alookup (hb0all l hl).2)
  refine ⟨?_, ?_, ?_, ?_, ?_⟩
  · rw [hlinks]
    intro e he
    rcases List.mem_append.1 he with hq | hq
    · exact hI1 e hq
    · rw [List.mem_singleton.1 hq]
  · rw [hlinks, keysOf_append, List.nodup_append]
    refine ⟨hI2, by simp [keysOf], ?_⟩
    intro a ha hb
    rw [show keysOf [(link.chanID, link)] = [link.chanID] from rfl,
      List.mem_singleton] at hb
    exact hfreshk (hb ▸ ha)
  · rw [hidx]
    by_cases hp : link.peer ∈ keysOf st.linksIndex
    · rw [keysOf_ainsert_present _ _ _ hp]
      exact hI3
    · rw [keysOf_ainsert_absent _ _ _ hp, List.nodup_append]
      refine ⟨hI3, List.nodup_singleton _, ?_⟩
      intro a ha hb
      rw [List.mem_singleton] at hb
      exact hp (hb ▸ ha)
  · rw [hidx]
    intro q hq
    rcases mem_ainsert hq with hnew | ⟨hold, hne⟩
    · subst hnew
      refine ⟨by simp, ?_, ?_⟩
      · rw [List.map_append, List.nodup_append]
        refine ⟨hb0nd, by simp, ?_⟩
        intro a ha hb
        simp only [List.map_cons, List.map_nil, List.mem_singleton] at hb
        obtain ⟨l, hl, hla⟩ := List.mem_map.1 ha
        exact hb0ne l hl (by rw [hla, hb])
      · intro l hl
        rcases List.mem_append.1 hl with hq2 | hq2
        · refine ⟨(hb0all l hq2).1, ?_⟩
          rw [hlinksA, alookup_ainsert_ne _ _ _ _ (hb0ne l hq2)]
          exact (hb0all l hq2).2
        · rw [List.mem_singleton.1 hq2]
          refine ⟨rfl, ?_⟩
          rw [hlinksA]
          exact alookup_ainsert_self _ _ _
    · obtain ⟨hqne, hqnd, hqall⟩ := hI4 q hold
      refine ⟨hqne, hqnd, ?_⟩
      intro l hl
      have hch : ¬ l.chanID = link.chanID := by
        intro hq2
        exact hfreshk (hq2 ▸ mem_keys_of_alookup (hqall l hl).2)
      refine ⟨(hqall l hl).1, ?_⟩
      rw [hlinksA, alookup_ainsert_ne _ _ _ _ hch]
      exact (hqall l hl).2
  · intro e he
    rw [hlinks] at he
    rcases List.mem_append.1 he with hq | hq
    · obtain ⟨b, hbk, hmemb⟩ := hI5 e hq
      by_cases hpe : e.2.peer = link.peer
      · have hbeq : b = bucket0 := by
          rw [hpe] at hbk
          rw [hb0, hbk]
          rfl
        refine ⟨bucket0 ++ [link], ?_, ?_⟩
        · rw [hidx, hpe]
          exact alookup_ainsert_self _ _ _
        · exact List.mem_append_left _ (hbeq ▸ hmemb)
      · refine ⟨b, ?_, hmemb⟩
        rw [hidx, alookup_ainsert_ne _ _ _ _ hpe]
        exact hbk
    · rw [List.mem_singleton.1 hq]
      refine ⟨bucket0 ++ [link], ?_, ?_⟩
      · rw [hidx]
        exact alookup_ainsert_self _ _ _
      · exact List.mem_append_right _ (List.mem_singleton.2 rfl)

theorem removeLink_preserves_RegInv (st : SwitchState) (cid : Nat)
    (hinv : RegInv st) : RegInv (removeLink st cid).1 := by
  obtain ⟨hI1, hI2, hI3, hI4, hI5⟩ := hinv
  cases hlk : alookup st.links cid with
  | none =>
    have hsame : (removeLink st cid).1 = st := by simp [removeLink, hlk]
    rw [hsame]
    exact ⟨hI1, hI2, hI3, hI4, hI5⟩
  | some link0 =>
    have hmem0 := mem_of_alookup_eq_some hlk
    have hchan : link0.chanID = cid := hI1 (cid, link0) hmem0
    obtain ⟨bucket, hbk, hlmem⟩ := hI5 (cid, link0) hmem0
    obtain ⟨hbne, hbnd, hball⟩ :=
      hI4 (link0.peer, bucket) (mem_of_alookup_eq_some hbk)
    have hbndv : bucket.Nodup := List.Nodup.of_map _ hbnd
    have hpeerlinks : (alookup st.linksIndex link0.peer).getD [] = bucket := by
      rw [hbk]
      rfl
    have hother : ∀ q ∈ st.linksIndex, ¬ q.1 = link0.peer →
        ∀ l ∈ q.2, ¬ l.chanID = cid := by
      intro q hq hqp l hl hq2
      have hpair := (hI4 q hq).2.2 l hl
      have hlcid : alookup st.links cid = some l := by
        rw [← hq2]
        exact hpair.2
      have hl0 : l = link0 := Option.some_inj.1 (hlcid.symm.trans hlk)
      exact hqp (by rw [← hpair.1, hl0])
    cases hsw : swapRemoveFirst (fun l => l.chanID = link0.chanID) bucket with
    | none =>
      exfalso
      have hfmn : firstMatchIdx
          (fun l => decide (l.chanID = link0.chanID)) bucket = none := by
        cases hfm : firstMatchIdx
            (fun l => decide (l.chanID = link0.chanID)) bucket with
        | none => rfl
        | some j =>
          unfold swapRemoveFirst at hsw
          rw [hfm] at hsw
          exact absurd hsw (by simp)
      exact absurd (by simp : decide (link0.chanID = link0.chanID) = true)
        (firstMatchIdx_eq_none hfmn link0 hlmem)
    | some remaining =>
      have hfm : ∃ i, firstMatchIdx
          (fun l => decide (l.chanID = link0.chanID)) bucket = some i ∧
          remaining = swapRemove bucket i := by
        unfold swapRemoveFirst at hsw
        cases hfm : firstMatchIdx
            (fun l => decide (l.chanID = link0.chanID)) bucket with
        | none => rw [hfm] at hsw; exact absurd hsw (by simp)
        | some i =>
          rw [hfm] at hsw
          exact ⟨i, rfl, (Option.some_inj.1 hsw).symm⟩
      obtain ⟨i, hfmi, hrem⟩ := hfm
      obtain ⟨hi, hpi⟩ := firstMatchIdx_some hfmi
      have hgeti : bucket.get ⟨i, hi⟩ = link0 := by
        apply inj_of_map_nodup hbnd (List.get_mem _ _ _) hlmem
        exact of_decide_eq_true hpi
      have hperm : remaining.Perm (bucket.eraseIdx i) := by
        rw [hrem]
        exact swapRemove_perm bucket i hi
      have hsub : ∀ x ∈ remaining, x ∈ bucket := fun x hx =>
        eraseIdx_subset_self (hperm.mem_iff.1 hx)
      have hno : link0 ∉ remaining := by
        intro hq
        have hq2 : link0 ∈ bucket.eraseIdx i := hperm.mem_iff.1 hq
        rw [← hgeti] at hq2
        exact not_mem_eraseIdx_of_nodup hi hbndv hq2
      have hkeep : ∀ x ∈ bucket, x ≠ link0 → x ∈ remaining := by
        intro x hx hne
        refine hperm.mem_iff.2 (mem_eraseIdx_of_ne hi hx ?_)
        rw [hgeti]
        exact hne
      have hndr : (remaining.map (fun l => l.chanID)).Nodup := by
        have h1 := hperm.map (fun l => l.chanID)
        have h2 : ((bucket.eraseIdx i).map (fun l => l.chanID)).Sublist
            (bucket.map (fun l => l.chanID)) :=
          (eraseIdx_sublist_self bucket i).map _
        exact (h1.nodup_iff).2 (h2.nodup hbnd)
      have hlinksA : (removeLink st cid).1.links = aerase st.links cid := by
        simp [removeLink, hlk, hchan]
      have hlook2 : ∀ l ∈ bucket, l ≠ link0 →
          alookup (aerase st.links cid) l.chanID = some l := by
        intro l hl hne
        have hlc : ¬ l.chanID = cid := by
          intro hq
          apply hne
          apply inj_of_map_nodup hbnd hl hlmem
          rw [hq, hchan]
        rw [alookup_aerase_ne _ _ _ hlc]
        exact (hball l hl).2
      have hI1' : ∀ e ∈ (removeLink st cid).1.links, e.2.chanID = e.1 := by
        rw [hlinksA]
        intro e he
        exact hI1 e ((mem_aerase _ _ _).1 he).1
      have hI2' : (keysOf (removeLink st cid).1.links).Nodup := by
        rw [hlinksA]
        have hsl : (keysOf (aerase st.links cid)).Sublist (keysOf st.links) := by
          unfold aerase keysOf
          exact (List.filter_sublist _).map _
        exact hsl.nodup hI2
      by_cases hrempty : remaining = []
      · have hidxA : (removeLink st cid).1.linksIndex =
            aerase st.linksIndex link0.peer := by
          simp [removeLink, hlk, hpeerlinks, hsw, hrempty]
        have hbsingle : ∀ x ∈ bucket, x = link0 := by
          intro x hx
          by_contra hne
          have := hkeep x hx hne
          rw [hrempty] at this
          exact List.not_mem_nil x this
        refine ⟨hI1', hI2', ?_, ?_, ?_⟩
        · rw [hidxA]
          have hsl : (keysOf (aerase st.linksIndex link0.peer)).Sublist
              (keysOf st.linksIndex) := by
            unfold aerase keysOf
            exact (List.filter_sublist _).map _
          exact hsl.nodup hI3
        · rw [hidxA]
          intro q hq
          obtain ⟨hq1, hq2⟩ := (mem_aerase _ _ _).1 hq
          obtain ⟨hne1, hnd1, hall1⟩ := hI4 q hq1
          refine ⟨hne1, hnd1, ?_⟩
          intro l hl
          refine ⟨(hall1 l hl).1, ?_⟩
          have hlc : ¬ l.chanID = cid := hother q hq1 hq2 l hl
          rw [hlinksA, alookup_aerase_ne _ _ _ hlc]
          exact (hall1 l hl).2
        · intro e he
          rw [hlinksA] at he
          obtain ⟨hel, hene⟩ := (mem_aerase _ _ _).1 he
          obtain ⟨b, hbk2, hmb⟩ := hI5 e hel
          have hepeer : ¬ e.2.peer = link0.peer := by
            intro hq
            rw [hq] at hbk2
            have hbeq : b = bucket := Option.some_inj.1 (hbk2.symm.trans hbk)
            have he2 : e.2 = link0 := hbsingle e.2 (hbeq ▸ hmb)
            apply hene
            rw [← hI1 e hel, he2, hchan]
          refine ⟨b, ?_, hmb⟩
          rw [hidxA, alookup_aerase_ne _ _ _ hepeer]
          exact hbk2
      · have hidxA : (removeLink st cid).1.linksIndex =
            ainsert st.linksIndex link0.peer remaining := by
          simp [removeLink, hlk, hpeerlinks, hsw, hrempty]
        refine ⟨hI1', hI2', ?_, ?_, ?_⟩
        · rw [hidxA, keysOf_ainsert_present _ _ _ (mem_keys_of_alookup hbk)]
          exact hI3
        · rw [hidxA]
          intro q hq
          rcases mem_ainsert hq with hnew | ⟨hold, hne⟩
          · subst hnew
            refine ⟨hrempty, hndr, ?_⟩
            intro l hl
            have hlb := hsub l hl
            have hlne : l ≠ link0 := fun hq2 => hno (hq2 ▸ hl)
            refine ⟨(hball l hlb).1, ?_⟩
            rw [hlinksA]
            exact hlook2 l hlb hlne
          · obtain ⟨hne1, hnd1, hall1⟩ := hI4 q hold
            refine ⟨hne1, hnd1, ?_⟩
            intro l hl
            refine ⟨(hall1 l hl).1, ?_⟩
            have hlc : ¬ l.chanID = cid := hother q hold hne l hl
            rw [hlinksA, alookup_aerase_ne _ _ _ hlc]
            exact (hall1 l hl).2
        · intro e he
          rw [hlinksA] at he
          obtain ⟨hel, hene⟩ := (mem_aerase _ _ _).1 he
          obtain ⟨b, hbk2, hmb⟩ := hI5 e hel
          have he2ne : e.2 ≠ link0 := by
            intro hq
            apply hene
            rw [← hI1 e hel, hq, hchan]
          by_cases hpe : e.2.peer = link0.peer
          · have hbeq : b = bucket := by
              rw [hpe] at hbk2
              exact Option.some_inj.1 (hbk2.symm.trans hbk)
            refine ⟨remaining, ?_, ?_⟩
            · rw [hidxA, hpe]
              exact alookup_ainsert_self _ _ _
            · exact hkeep e.2 (hbeq ▸ hmb) he2ne
          · refine ⟨b, ?_, hmb⟩
            rw [hidxA, alookup_ainsert_ne _ _ _ _ hpe]
            exact hbk2

/-- An add-link or remove-link request processed by the loop. -/
inductive RegOp : Type
  | add (link : ChannelLink)
  | rem (chanID : Nat)
  deriving DecidableEq, Repr

/-- Apply one registry operation (dropping events and reply). -/
def applyRegOp (st : SwitchState) : RegOp → SwitchState
  | .add link => (addLink st link).1
  | .rem cid => (removeLink st cid).1

/-- Run a sequence of registry operations. -/
def regRun (st : SwitchState) : List RegOp → SwitchState
  | [] => st
  | op :: ops => regRun (applyRegOp st op) ops

/-- The caller contract of the claim: each added link starts
successfully and reports a channel id not currently registered. -/
def RegOpOK (st : SwitchState) : RegOp → Prop
  | .add link => link.startOk = true ∧ alookup st.links link.chanID = none
  | .rem _ => True

/-- The caller contract holds at every step of the sequence. -/
def ValidOps : SwitchState → List RegOp → Prop
  | _, [] => True
  | st, op :: ops => RegOpOK st op ∧ ValidOps (applyRegOp st op) ops

/-- The consistency properties of the two link maps stated by the
claim: `links[chan_id].channel_id() == chan_id`; every registered link
has exactly one entry in its peer's bucket; every bucket member is
indexed under its own peer and registered; no empty bucket survives. -/
def RegistryConsistent (st : SwitchState) : Prop :=
  (∀ cid l, getLink st cid = some l → l.chanID = cid) ∧
  (∀ e ∈ st.links, ∃ bucket,
    alookup st.linksIndex e.2.peer = some bucket ∧ bucket.count e.2 = 1) ∧
  (∀ q ∈ st.linksIndex, ∀ l ∈ q.2,
    l.peer = q.1 ∧ getLink st l.chanID = some l) ∧
  (∀ q ∈ st.linksIndex, q.2 ≠ [])

theorem applyRegOp_preserves (st : SwitchState) (op : RegOp)
    (hinv : RegInv st) (hok : RegOpOK st op) : RegInv (applyRegOp st op) := by
  cases op with
  | add link => exact addLink_preserves_RegInv st link hinv hok.1 hok.2
  | rem cid => exact removeLink_preserves_RegInv st cid hinv

theorem ValidOps_take : ∀ (ops : List RegOp) (st : SwitchState) (n : Nat),
    ValidOps st ops → ValidOps st (ops.take n) := by
  intro ops
  induction ops with
  | nil =>
    intro st n _
    cases n <;> trivial
  | cons op ops ih =>
    intro st n hv
    cases n with
    | zero => trivial
    | succ m => exact ⟨hv.1, ih _ m hv.2⟩

theorem regRun_RegInv : ∀ (ops : List RegOp) (st : SwitchState),
    RegInv st → ValidOps st ops → RegInv (regRun st ops) := by
  intro ops
  induction ops with
  | nil => intro st h _; exact h
  | cons op ops ih =>
    intro st h hv
    exact ih _ (applyRegOp_preserves st op h hv.1) hv.2

theorem RegInv_consistent (st : SwitchState) (hinv : RegInv st) :
    RegistryConsistent st := by
  obtain ⟨hI1, hI2, hI3, hI4, hI5⟩ := hinv
  refine ⟨?_, ?_, ?_, ?_⟩
  · intro cid l h
    exact hI1 (cid, l) (mem_of_alookup_eq_some h)
  · intro e he
    obtain ⟨bucket, hbk, hmem⟩ := hI5 e he
    refine ⟨bucket, hbk, ?_⟩
    have hnd : bucket.Nodup := List.Nodup.of_map _
      (hI4 (e.2.peer, bucket) (mem_of_alookup_eq_some hbk)).2.1
    exact List.count_eq_one_of_mem hnd hmem
  · intro q hq l hl
    exact (hI4 q hq).2.2 l hl
  · intro q hq
    exact (hI4 q hq).1

/-- Claim C2: for every sequence of add-link and remove-link operations
respecting the caller contract (distinct channel id, successful start),
after each step the two link maps are consistent: keys match channel
ids, the `links` map and the peer index correspond one-to-one, and a
peer's entry disappears as soon as its list becomes empty. -/
theorem link_registry_consistency (ops : List RegOp) (n : Nat)
    (hvalid : ValidOps newSwitch ops) :
    RegistryConsistent (regRun newSwitch (ops.take n)) :=
  RegInv_consistent _
    (regRun_RegInv _ _ RegInv_newSwitch (ValidOps_take ops newSwitch n hvalid))

/-- Claim C2 witness: a concrete add, add, remove run. -/
theorem link_registry_consistency_witness :
    RegistryConsistent (regRun newSwitch
      ([RegOp.add { chanID := 1, peer := 10, bandwidth := 100, startOk := true },
        RegOp.add { chanID := 2, peer := 10, bandwidth := 200, startOk := true },
        RegOp.rem 1].take 3)) :=
  link_registry_consistency
    [RegOp.add { chanID := 1, peer := 10, bandwidth := 100, startOk := true },
     RegOp.add { chanID := 2, peer := 10, bandwidth := 200, startOk := true },
     RegOp.rem 1] 3
    ⟨⟨rfl, rfl⟩, ⟨rfl, rfl⟩, trivial, trivial⟩

end HtlcSwitch
